import Mathlib

/-
Verification development for the Wortmann2Shopify catalog synchronizer.

The Python source is shallowly embedded: database rows become typed Lean
structures (a missing / NULL column value is `none`), numeric column values
(floats and Decimals) are modelled as exact rationals, byte payloads as
lists of byte values, and every service function used by the claims becomes
a pure Lean function mirroring the Python control flow.  Python dictionaries
are modelled as insertion-ordered association lists, matching CPython's
documented dict semantics.
-/

namespace W2S

/-! ## Python-semantics helpers -/

/-- Truthiness of an optional string, as Python evaluates `x` in
`x or d`: missing (`None`) and the empty string are falsy. -/
def truthyS : Option String → Bool
  | none => false
  | some s => s ≠ ""

/-- Value of the Python expression `x or d` for an optional string `x`. -/
def pyStrOr (o : Option String) (d : String) : String :=
  match o with
  | some s => if s ≠ "" then s else d
  | none => d

/-- Value of `str(x)` / `f"{x}"` for an optional string: `None` renders as
the four characters None. -/
def pyStr : Option String → String
  | some s => s
  | none => "None"

/-- Value of `str(x)` / `f"{x}"` for an optional integer. -/
def pyStrI : Option Int → String
  | some i => toString i
  | none => "None"

/-- Value of `int(x or d)` for an optional integer `x` (zero is falsy). -/
def pyIntOr (o : Option Int) (d : Int) : Int :=
  match o with
  | some i => if i ≠ 0 then i else d
  | none => d

/-- Value of `float(x or d)` for an optional numeric `x` (zero is falsy). -/
def pyNumOr (o : Option ℚ) (d : ℚ) : ℚ :=
  match o with
  | some q => if q ≠ 0 then q else d
  | none => d

/-- Rendering of `str(x)` for an optional numeric DB value.  The exact
digit string CPython produces is irrelevant to every claim; the rendering
used here is injective on rationals, which is all the development needs. -/
def pyStrQ : Option ℚ → String
  | none => "None"
  | some q => if q.den = 1 then toString q.num else toString q.num ++ "/" ++ toString q.den

/-- Rendering of the Python format `f"{x:.2f}"` at the exact-rational level:
the value is scaled by 100, rounded to an integer, and printed with two
decimal digits.  (CPython rounds the underlying binary float to even; on the
exact rationals appearing here the difference only shows at ties, which no
claim exercises.) -/
def fmt2 (q : ℚ) : String :=
  let n : ℤ := ⌊q * 100 + 1/2⌋
  let sign : String := if n < 0 then "-" else ""
  let m : ℤ := if n < 0 then -n else n
  sign ++ toString (Int.fdiv m 100) ++ "." ++
    (if m % 100 < 10 then "0" else "") ++ toString (m % 100)

/-- Insertion-ordered dictionary update, mirroring CPython `d[k] = v`:
an existing key keeps its position and receives the new value; a new key is
appended at the end. -/
def dictSet [DecidableEq κ] (k : κ) (v : α) : List (κ × α) → List (κ × α)
  | [] => [(k, v)]
  | (k₁, v₁) :: rest => if k₁ = k then (k, v) :: rest else (k₁, v₁) :: dictSet k v rest

/-- Dictionary lookup, mirroring CPython `d.get(k)`. -/
def dictGet [DecidableEq κ] (k : κ) : List (κ × α) → Option α
  | [] => none
  | (k₁, v) :: rest => if k₁ = k then some v else dictGet k rest

/-- Update of a `defaultdict(list)` entry, mirroring `d[k].append(v)`. -/
def dictAppend [DecidableEq κ] (k : κ) (v : α) (d : List (κ × List α)) : List (κ × List α) :=
  match dictGet k d with
  | some vs => dictSet k (vs ++ [v]) d
  | none => dictSet k [v] d

/-- First-seen de-duplication with an explicit seen accumulator, mirroring
the seen-set idiom used throughout the source. -/
def dedupFirstAux [DecidableEq α] (seen : List α) : List α → List α
  | [] => []
  | x :: xs => if x ∈ seen then dedupFirstAux seen xs else x :: dedupFirstAux (x :: seen) xs

/-- First-seen de-duplication of a list. -/
def dedupFirst [DecidableEq α] (l : List α) : List α := dedupFirstAux [] l

/-- Splitting a character list on the pipe character, mirroring CPython
str.split with a one-character separator. -/
def splitPipeAux : List Char → List String
  | [] => [""]
  | c :: cs =>
      let r := splitPipeAux cs
      if c = '|' then "" :: r
      else
        match r with
        | [] => [String.mk [c]]
        | h :: t => String.mk (c :: h.data) :: t

/-- Value of the Python expression s.split with separator the pipe
character. -/
def splitPipe (s : String) : List String := splitPipeAux s.data

/-! ## app/utils/helpers.py : to_base64

The image payloads stored in the BilderShopify table are binary blobs, so
only the bytes branch of the Python function is reachable; it is embedded
over lists of byte values.  An empty payload is falsy and yields the empty
string, exactly as in the source. -/

/-- Alphabet of standard base64. -/
def b64Table : List Char :=
  "ABCDEFGHIJKLMNOPQRSTUVWXYZabcdefghijklmnopqrstuvwxyz0123456789+/".data

/-- Character of the base64 alphabet at a six-bit index. -/
def b64Char (n : Nat) : Char := b64Table.getD n 'A'

/-- Standard base64 encoding of a byte list, three bytes to four output
characters with trailing padding, as produced by base64.b64encode. -/
def b64EncodeAux : List Nat → List Char
  | [] => []
  | [a] => [b64Char (a / 4), b64Char (a % 4 * 16), '=', '=']
  | [a, b] => [b64Char (a / 4), b64Char (a % 4 * 16 + b / 16), b64Char (b % 16 * 4), '=']
  | a :: b :: c :: rest =>
      b64Char (a / 4) :: b64Char (a % 4 * 16 + b / 16) ::
        b64Char (b % 16 * 4 + c / 64) :: b64Char (c % 64) :: b64EncodeAux rest

/-- Embedding of to_base64 for the binary payloads the pipeline feeds it:
falsy (empty) input yields the empty string, otherwise the base64 encoding
of the bytes. -/
def to_base64 (payload : List Nat) : String :=
  if payload = [] then "" else String.mk (b64EncodeAux payload)

/-! ## Database row model

Typed images of the rows returned by app/services/database_service.py:
WortmannProdukte_backup products, BilderShopify images and GarantieOptionen
warranty options.  Each field is optional because any column can be NULL. -/

/-- Row of the WortmannProdukte_backup table (the columns the transform
pipeline reads). -/
structure ProductRow where
  productId : Option String
  title : Option String
  descriptionShort : Option String
  longDescription : Option String
  manufacturer : Option String
  category : Option String
  categoryPath : Option String
  warranty : Option String
  price_B2B_Regular : Option ℚ
  price_B2B_Discounted : Option ℚ
  price_B2C_inclVAT : Option ℚ
  stock : Option Int
  stockNextDelivery : Option String
  grossWeight : Option ℚ
  netWeight : Option ℚ
  garantiegruppe : Option Int
  accessoryProducts : Option String
deriving DecidableEq

/-- Row of the BilderShopify table. -/
structure ImageRow where
  supplier_aid : Option String
  isPrimary : Option Int
  base64 : Option (List Nat)
deriving DecidableEq

/-- Row of the GarantieOptionen table; also the shape of the dicts the
grouping step appends to a product's warranty accumulator, since it copies
exactly these six keys. -/
structure WarrantyRow where
  id : Option Int
  name : Option String
  monate : Option Int
  prozentsatz : Option ℚ
  minimum : Option ℚ
  garantiegruppe : Option Int
deriving DecidableEq

/-- Merged item produced by merge_data.  The Python code merges dicts with
disjoint key sets (product, image and warranty columns do not overlap), so
the merge is faithfully a product row plus an optional image part plus an
optional warranty part. -/
structure MergedItem where
  product : ProductRow
  image : Option ImageRow
  warrantyOpt : Option WarrantyRow
deriving DecidableEq

/-! ## app/services/product_service.py : merge_data -/

/-- Conversion used by the image sort key: int(value) with fallback 0 on
missing input, mirroring the local _to_int helper. -/
def toIntD : Option Int → Int
  | none => 0
  | some v => v

/-- Stable insertion of an image into a list sorted descending by the
IsPrimary key: the image is placed after every image with a key at least as
large, matching CPython's stable sort with reverse order. -/
def insertPrimaryDesc (x : ImageRow) : List ImageRow → List ImageRow
  | [] => [x]
  | y :: ys =>
      if toIntD x.isPrimary ≤ toIntD y.isPrimary then y :: insertPrimaryDesc x ys
      else x :: y :: ys

/-- Stable descending sort of a product's images by the IsPrimary key,
mirroring list.sort with the reverse flag in merge_data. -/
def sortPrimaryFirst (l : List ImageRow) : List ImageRow :=
  l.foldl (fun acc x => insertPrimaryDesc x acc) []

/-- Index of images keyed by truthy supplier_aid, in input order, as built
by the first loop of merge_data. -/
def imagesByProduct (images : List ImageRow) : List (String × List ImageRow) :=
  images.foldl
    (fun d im =>
      match im.supplier_aid with
      | some s => if s ≠ "" then dictAppend s im d else d
      | none => d) []

/-- Index of warranty options keyed by their non-NULL garantiegruppe, in
input order, as built by the second loop of merge_data. -/
def warrantiesByGroup (warranties : List WarrantyRow) : List (Int × List WarrantyRow) :=
  warranties.foldl
    (fun d w =>
      match w.garantiegruppe with
      | some g => dictAppend g w d
      | none => d) []

/-- Embedding of ProductService.merge_data: per product, one merged row per
associated image (primary-sorted), one per warranty option of its group, and
a bare row when neither exists. -/
def merge_data (products : List ProductRow) (images : List ImageRow)
    (warranties : List WarrantyRow) : List MergedItem :=
  let ibp := (imagesByProduct images).map (fun kv => (kv.1, sortPrimaryFirst kv.2))
  let wbg := warrantiesByGroup warranties
  products.flatMap (fun p =>
    let imgs : Option (List ImageRow) :=
      match p.productId with
      | some s => dictGet s ibp
      | none => none
    let wopts : Option (List WarrantyRow) :=
      match p.garantiegruppe with
      | some g => dictGet g wbg
      | none => none
    (match imgs with
     | some l => l.map (fun im => ⟨p, some im, none⟩)
     | none => []) ++
    (match wopts with
     | some l => l.map (fun w => ⟨p, none, some w⟩)
     | none => []) ++
    (if imgs = none ∧ (p.garantiegruppe = none ∨ wopts = none) then [⟨p, none, none⟩]
     else []))

/-! ## app/services/product_service.py : process_products grouping -/

/-- Accumulator entry of the product_map built by process_products: the
first item's product fields plus the accumulated image encodings and
warranty dicts. -/
structure GroupedProduct where
  row : ProductRow
  images : List String
  warranties : List WarrantyRow
deriving DecidableEq

/-- Raw image payload of a merged item, mirroring the truthy-or chain over
the base64 and hex keys: only the base64 column exists on image rows, and an
empty payload is falsy. -/
def imgRawOf (it : MergedItem) : Option (List Nat) :=
  match it.image with
  | some im =>
      match im.base64 with
      | some b => if b ≠ [] then some b else none
      | none => none
  | none => none

/-- Warranty dict a merged item contributes to the accumulator: present when
the item has a truthy name and a non-NULL prozentsatz. -/
def warrantyRecOf (it : MergedItem) : Option WarrantyRow :=
  match it.warrantyOpt with
  | some w => if truthyS w.name ∧ w.prozentsatz ≠ none then some w else none
  | none => none

/-- Folding step of the grouping loop of process_products for one merged
item: fetch or create the product entry, accumulate its image (skipping
empty encodings and encodings already seen) and its warranty dict. -/
def processItem (d : List (String × GroupedProduct)) (it : MergedItem) :
    List (String × GroupedProduct) :=
  match it.product.productId with
  | none => d
  | some pid =>
      if pid = "" then d
      else
        let cur : GroupedProduct :=
          match dictGet pid d with
          | some g => g
          | none => ⟨it.product, [], []⟩
        let cur : GroupedProduct :=
          match imgRawOf it with
          | some b =>
              let v := to_base64 b
              if v ≠ "" ∧ v ∉ cur.images then { cur with images := cur.images ++ [v] }
              else cur
          | none => cur
        let cur : GroupedProduct :=
          match warrantyRecOf it with
          | some w => { cur with warranties := cur.warranties ++ [w] }
          | none => cur
        dictSet pid cur d

/-- Grouping loop of process_products over all merged items. -/
def processGroups (items : List MergedItem) : List (String × GroupedProduct) :=
  items.foldl processItem []

/-! ## JSON values

Shared universe for Python values flowing through json.dumps / json.loads
and the metafield parser.  Numbers are integers (no claim touches JSON
fractions). -/

/-- JSON value. -/
inductive Json where
  | null : Json
  | bool (b : Bool) : Json
  | num (n : Int) : Json
  | str (s : String) : Json
  | arr (items : List Json) : Json
  | obj (fields : List (String × Json)) : Json

/-- Escaping of quote and backslash inside a JSON string literal. -/
def jsonEscapeChars : List Char → List Char
  | [] => []
  | c :: cs =>
      if c = '"' ∨ c = '\\' then '\\' :: c :: jsonEscapeChars cs
      else c :: jsonEscapeChars cs

/-- Printing of a JSON value with the CPython json.dumps default separators. -/
def Json.dumps : Json → String
  | .null => "null"
  | .bool true => "true"
  | .bool false => "false"
  | .num n => toString n
  | .str s => "\"" ++ String.mk (jsonEscapeChars s.data) ++ "\""
  | .arr items => "[" ++ dumpsSep items ++ "]"
  | .obj fields => "\x7b" ++ dumpsFields fields ++ "\x7d"
where
  dumpsSep : List Json → String
    | [] => ""
    | [x] => x.dumps
    | x :: y :: xs => x.dumps ++ ", " ++ dumpsSep (y :: xs)
  dumpsFields : List (String × Json) → String
    | [] => ""
    | [kv] => "\"" ++ String.mk (jsonEscapeChars kv.1.data) ++ "\": " ++ kv.2.dumps
    | kv :: y :: xs =>
        "\"" ++ String.mk (jsonEscapeChars kv.1.data) ++ "\": " ++ kv.2.dumps ++ ", " ++
          dumpsFields (y :: xs)

/-- Whitespace test for the JSON grammar. -/
def isWs (c : Char) : Bool := c = ' ' ∨ c = '\t' ∨ c = '\n' ∨ c = '\r'

/-- Leading-whitespace removal. -/
def dropWs : List Char → List Char
  | [] => []
  | c :: cs => if isWs c then dropWs cs else c :: cs

/-- Parsing of the body of a JSON string literal (after the opening quote),
returning its characters and the rest of the input.  Escapes are limited to
the ones json.dumps emits plus the common control escapes. -/
def parseStrAux : List Char → Option (List Char × List Char)
  | [] => none
  | '"' :: rest => some ([], rest)
  | '\\' :: e :: rest =>
      let mapped : Option Char :=
        if e = '"' then some '"'
        else if e = '\\' then some '\\'
        else if e = '/' then some '/'
        else if e = 'n' then some '\n'
        else if e = 't' then some '\t'
        else if e = 'r' then some '\r'
        else none
      match mapped with
      | some c =>
          match parseStrAux rest with
          | some (cs, rem) => some (c :: cs, rem)
          | none => none
      | none => none
  | '\\' :: [] => none
  | c :: rest =>
      match parseStrAux rest with
      | some (cs, rem) => some (c :: cs, rem)
      | none => none

/-- Parsing of a run of decimal digits. -/
def parseDigits : List Char → Option (Nat × List Char)
  | [] => none
  | c :: cs =>
      if c.isDigit then
        match parseDigits cs with
        | some (n, rem) => some ((c.toNat - 48) * 10 ^ (cs.length - rem.length) + n, rem)
        | none => some (c.toNat - 48, cs)
      else none

mutual

/-- Fuel-bounded recursive-descent parser for JSON values.  The fuel only
bounds nesting depth; jsonLoads supplies more fuel than any input can
consume. -/
def parseVal : Nat → List Char → Option (Json × List Char)
  | 0, _ => none
  | fuel + 1, input =>
      match dropWs input with
      | [] => none
      | 'n' :: 'u' :: 'l' :: 'l' :: rest => some (.null, rest)
      | 't' :: 'r' :: 'u' :: 'e' :: rest => some (.bool true, rest)
      | 'f' :: 'a' :: 'l' :: 's' :: 'e' :: rest => some (.bool false, rest)
      | '"' :: rest =>
          match parseStrAux rest with
          | some (cs, rem) => some (.str (String.mk cs), rem)
          | none => none
      | '[' :: rest =>
          (match dropWs rest with
           | ']' :: rem => some (.arr [], rem)
           | _ => parseElems fuel rest [])
      | '{' :: rest =>
          (match dropWs rest with
           | '}' :: rem => some (.obj [], rem)
           | _ => parseMembers fuel rest [])
      | '-' :: rest =>
          (match parseDigits rest with
           | some (n, rem) => some (.num (-(n : Int)), rem)
           | none => none)
      | c :: rest =>
          if c.isDigit then
            match parseDigits (c :: rest) with
            | some (n, rem) => some (.num (n : Int), rem)
            | none => none
          else none

/-- Parsing of the comma-separated elements of a JSON array. -/
def parseElems : Nat → List Char → List Json → Option (Json × List Char)
  | 0, _, _ => none
  | fuel + 1, input, acc =>
      match parseVal fuel input with
      | some (v, rem) =>
          (match dropWs rem with
           | ',' :: rest => parseElems fuel rest (acc ++ [v])
           | ']' :: rest => some (.arr (acc ++ [v]), rest)
           | _ => none)
      | none => none

/-- Parsing of the comma-separated members of a JSON object. -/
def parseMembers : Nat → List Char → List (String × Json) → Option (Json × List Char)
  | 0, _, _ => none
  | fuel + 1, input, acc =>
      match dropWs input with
      | '"' :: rest =>
          (match parseStrAux rest with
           | some (cs, rem) =>
               (match dropWs rem with
                | ':' :: rest₂ =>
                    (match parseVal fuel rest₂ with
                     | some (v, rem₂) =>
                         (match dropWs rem₂ with
                          | ',' :: rest₃ => parseMembers fuel rest₃ (acc ++ [(String.mk cs, v)])
                          | '}' :: rest₃ => some (.obj (acc ++ [(String.mk cs, v)]), rest₃)
                          | _ => none)
                     | none => none)
                | _ => none)
           | none => none)
      | _ => none

end

/-- Embedding of json.loads: a parse must consume the entire input up to
trailing whitespace, else it fails. -/
def jsonLoads (s : String) : Option Json :=
  match parseVal (s.data.length + 8) s.data with
  | some (v, rem) => if dropWs rem = [] then some v else none
  | none => none

/-! ## Shopify record model (app/models/shopify.py) -/

/-- Pydantic ShopifyVariant. -/
structure ShopifyVariant where
  price : String
  sku : String
  inventory_quantity : Int
  inventory_management : Option String
  inventory_policy : Option String
  weight : ℚ
  weight_unit : String
  option1 : String
deriving DecidableEq

/-- Pydantic ShopifyOption. -/
structure ShopifyOption where
  name : String
  values : List String
deriving DecidableEq

/-- Pydantic ShopifyMetafield (the namespace field is called ns because
namespace is a Lean keyword). -/
structure ShopifyMetafield where
  ns : String
  key : String
  value : String
  type : String
deriving DecidableEq

/-- Pydantic ShopifyImage. -/
structure ShopifyImage where
  attachment : String
deriving DecidableEq

/-- Pydantic ShopifyProduct. -/
structure ShopifyProduct where
  title : String
  handle : String
  body_html : String
  vendor : Option String
  product_type : Option String
  tags : Option (List String)
  variants : List ShopifyVariant
  options : List ShopifyOption
  metafields : List ShopifyMetafield
  images : Option (List ShopifyImage)
deriving DecidableEq

/-- Pydantic ShopifyProductWrapper. -/
structure ShopifyProductWrapper where
  product : ShopifyProduct
deriving DecidableEq

/-! ## app/services/product_service.py : _create_shopify_product -/

/-- Group-and-id filter over the accumulated warranty dicts: keep the ones
whose stringified garantiegruppe equals the stringified product group and
whose id was not already seen (first occurrence kept). -/
def filterWarranties (grpS : String) (seen : List (Option Int)) :
    List WarrantyRow → List WarrantyRow
  | [] => []
  | w :: ws =>
      if pyStrI w.garantiegruppe = grpS ∧ w.id ∉ seen then
        w :: filterWarranties grpS (w.id :: seen) ws
      else filterWarranties grpS seen ws

/-- Variant built for one warranty option in the warranty-group branch. -/
def warrantyVariant (pid : Option String) (base_price weight : ℚ) (w : WarrantyRow)
    (pz : ℚ) : ShopifyVariant :=
  { price := fmt2 (base_price + base_price * pz / 100)
    sku := pyStr pid ++ "-" ++ ("G" ++ pyStrI w.id)
    inventory_quantity := 0
    inventory_management := none
    inventory_policy := some "deny"
    weight := weight
    weight_unit := "kg"
    option1 := pyStr w.name ++ " " ++ pyStrI w.monate ++ " Monate" }

/-- Loop over the filtered warranties building the option-value list and the
variant list.  A warranty whose prozentsatz is NULL raises inside the try
block before anything is appended and is skipped, as in the source. -/
def warrantyVariantsLoop (pid : Option String) (base_price weight : ℚ) :
    List WarrantyRow → List String × List ShopifyVariant
  | [] => ([], [])
  | w :: ws =>
      let rest := warrantyVariantsLoop pid base_price weight ws
      match w.prozentsatz with
      | none => rest
      | some pz =>
          (pyStr w.name :: rest.1, warrantyVariant pid base_price weight w pz :: rest.2)

/-- Single variant used by the no-group case and the empty-expansion
fallback. -/
def singleVariant (pid : Option String) (base_price : ℚ) (qty : Int) (weight : ℚ)
    (label : String) : ShopifyVariant :=
  { price := fmt2 base_price
    sku := pyStr pid
    inventory_quantity := qty
    inventory_management := some "shopify"
    inventory_policy := some "deny"
    weight := weight
    weight_unit := "kg"
    option1 := label }

/-- Embedding of ProductService._create_shopify_product.  The Python set
used for list(set(option_values)) iterates in an unspecified order; it is
modelled as first-seen de-duplication, which no claim distinguishes. -/
def _create_shopify_product (g : GroupedProduct) : ShopifyProductWrapper :=
  let p := g.row
  let base_price : ℚ := pyNumOr p.price_B2C_inclVAT (pyNumOr p.price_B2B_Regular 0)
  let qty : Int := pyIntOr p.stock 0
  let weight : ℚ := pyNumOr p.grossWeight (pyNumOr p.netWeight 0)
  let handle := "prod-" ++ pyStr p.productId
  let has_group : Bool := pyIntOr p.garantiegruppe 0 ≠ 0
  let images := (g.images.filter (fun b => b ≠ "")).map ShopifyImage.mk
  let vv : List String × List ShopifyVariant :=
    if !has_group then
      let label := pyStrOr p.warranty "Standard"
      ([label], [singleVariant p.productId base_price qty weight label])
    else
      let filtered := filterWarranties (pyStrI p.garantiegruppe) [] g.warranties
      let built := warrantyVariantsLoop p.productId base_price weight filtered
      if built.2 = [] then
        let label := pyStrOr p.warranty "Standard"
        ([label], [singleVariant p.productId base_price qty weight label])
      else built
  let metafields : List ShopifyMetafield :=
    (if !has_group then
      [⟨"custom", "warranty", pyStrOr p.warranty "", "single_line_text_field"⟩]
     else []) ++
    [⟨"custom", "Inventarbestand", toString qty, "number_integer"⟩,
     ⟨"custom", "StockNextDelivery", pyStrOr p.stockNextDelivery "", "single_line_text_field"⟩,
     ⟨"custom", "Price_B2B_Regular", pyStrQ p.price_B2B_Regular, "number_decimal"⟩,
     ⟨"custom", "Price_B2B_Discounted", pyStrQ p.price_B2B_Discounted, "number_decimal"⟩] ++
    (if truthyS p.accessoryProducts then
      let split := splitPipe (pyStrOr p.accessoryProducts "")
      let prefixed := split.map (fun i => "prod-" ++ i)
      [⟨"custom", "verwandte_produkte", (Json.arr (prefixed.map Json.str)).dumps, "json"⟩]
     else
      [⟨"custom", "verwandte_produkte", "", "json"⟩])
  ShopifyProductWrapper.mk
    { title := pyStrOr p.title "Untitled Product"
      handle := handle
      body_html := pyStrOr p.longDescription (pyStrOr p.descriptionShort "")
      vendor := p.manufacturer
      product_type := p.category
      tags := if truthyS p.categoryPath then some (splitPipe (pyStrOr p.categoryPath "")) else none
      variants := vv.2
      options := [⟨"Garantie", dedupFirst vv.1⟩]
      metafields := metafields
      images := if images = [] then none else some images }

/-- Embedding of ProductService.process_products: group the merged items by
truthy ProductId and convert each grouped product. -/
def process_products (items : List MergedItem) : List ShopifyProductWrapper :=
  (processGroups items).map (fun kv => _create_shopify_product kv.2)

/-! ## app/utils/helpers.py : parse_metafield_value and gid_to_numeric_id -/

/-- Python truthiness of a JSON-shaped value. -/
def pyFalsy : Json → Bool
  | .null => true
  | .bool b => !b
  | .num n => n = 0
  | .str s => s = ""
  | .arr l => l.isEmpty
  | .obj l => l.isEmpty

/-- Value of str.strip with no arguments: whitespace removed from both
ends. -/
def pyStrip (s : String) : String :=
  String.mk ((dropWs (dropWs s.data).reverse).reverse)

/-- Leading character test on a string. -/
def headIs (c : Char) (s : String) : Bool :=
  match s.data with
  | c₁ :: _ => c₁ = c
  | [] => false

/-- Leading two-character test on a string. -/
def headIs2 (c₁ c₂ : Char) (s : String) : Bool :=
  match s.data with
  | d₁ :: d₂ :: _ => d₁ = c₁ ∧ d₂ = c₂
  | _ => false

/-- Trailing character test on a string. -/
def lastIs (c : Char) (s : String) : Bool := headIs c (String.mk s.data.reverse)

/-- Trailing two-character test on a string. -/
def lastIs2 (c₁ c₂ : Char) (s : String) : Bool := headIs2 c₂ c₁ (String.mk s.data.reverse)

/-- Embedding of parse_metafield_value: falsy values and lists pass through;
a stripped string bracketed by square brackets is JSON-decoded (unchanged on
decode failure); a stripped string bracketed by quote-bracket pairs is
JSON-decoded twice (unchanged on any failure, including when the first
decode does not yield a string); everything else passes through. -/
def parse_metafield_value (value : Json) : Json :=
  if pyFalsy value then value
  else
    match value with
    | .arr _ => value
    | .str s₀ =>
        let s := pyStrip s₀
        if headIs '[' s ∧ lastIs ']' s then
          match jsonLoads s with
          | some j => j
          | none => value
        else if headIs2 '"' '[' s ∧ lastIs2 ']' '"' s then
          match jsonLoads s with
          | some (.str inner) =>
              (match jsonLoads inner with
               | some j => j
               | none => value)
          | some _ => value
          | none => value
        else value
    | _ => value

/-- Parsing of a complete optionally signed integer literal, as int() does
on the clean digit strings that appear in global ids. -/
def parseIntStrict (cs : List Char) : Option Int :=
  match cs with
  | '-' :: rest =>
      (parseDigits rest).bind (fun p => if p.2 = [] then some (-(p.1 : Int)) else none)
  | '+' :: rest =>
      (parseDigits rest).bind (fun p => if p.2 = [] then some ((p.1 : Int)) else none)
  | _ => (parseDigits cs).bind (fun p => if p.2 = [] then some ((p.1 : Int)) else none)

/-- Embedding of gid_to_numeric_id: a falsy gid yields None, otherwise the
segment after the last slash is parsed as an integer, None on failure. -/
def gid_to_numeric_id (gid : Option String) : Option Int :=
  match gid with
  | none => none
  | some s =>
      if s = "" then none
      else parseIntStrict ((s.data.reverse.takeWhile (fun c => c ≠ '/')).reverse)

/-! ## app/services/shopify_service.py : optional-metafield sync

The two sync functions first list the product's remote metafields over HTTP;
the embedding takes that listed state as input and returns the list of
mutating REST calls the function then emits, which is the observable
behavior the claims are about. -/

/-- Remote metafield as listed by the REST metafields endpoint. -/
structure RemoteMetafield where
  ns : String
  key : String
  id : Option Int
deriving DecidableEq

/-- Mutating REST call emitted by a metafield sync pass. -/
inductive MetafieldCall where
  | deleteCall (id : Int) : MetafieldCall
  | updateCall (id : Int) (value : String) (type : String) : MetafieldCall
  | createCall (key : String) (value : String) (type : String) (ownerId : Int) : MetafieldCall
deriving DecidableEq

/-- First listed metafield with namespace custom and the given key,
mirroring the target-search loop. -/
def findTarget (key : String) : List RemoteMetafield → Option RemoteMetafield
  | [] => none
  | m :: ms => if m.ns = "custom" ∧ m.key = key then some m else findTarget key ms

/-- Truthy identifier of the target, mirroring target and target.get of the
id key (a zero id is falsy). -/
def targetId (t : Option RemoteMetafield) : Option Int :=
  match t with
  | some m =>
      match m.id with
      | some i => if i ≠ 0 then some i else none
      | none => none
  | none => none

/-- Shared body of _sync_stock_next_delivery_metafield and
_sync_accessory_products_metafield, which are textually identical up to the
metafield key and type: empty desired value deletes the existing metafield
if present; non-empty desired value updates in place when an identifier is
known and creates otherwise. -/
def syncOptionalMetafield (key ty : String) (product_id : Int)
    (remote : List RemoteMetafield) (desired_value : Option String) : List MetafieldCall :=
  let tid := targetId (findTarget key remote)
  if ¬ truthyS desired_value then
    match tid with
    | some i => [.deleteCall i]
    | none => []
  else
    match tid with
    | some i => [.updateCall i (pyStrOr desired_value "") ty]
    | none => [.createCall key (pyStrOr desired_value "") ty product_id]

/-- Embedding of ShopifyService._sync_stock_next_delivery_metafield. -/
def _sync_stock_next_delivery_metafield (product_id : Int) (remote : List RemoteMetafield)
    (desired_value : Option String) : List MetafieldCall :=
  syncOptionalMetafield "StockNextDelivery" "single_line_text_field" product_id remote
    desired_value

/-- Embedding of ShopifyService._sync_accessory_products_metafield. -/
def _sync_accessory_products_metafield (product_id : Int) (remote : List RemoteMetafield)
    (desired_value : Option String) : List MetafieldCall :=
  syncOptionalMetafield "verwandte_produkte" "json" product_id remote desired_value

/-! ## app/services/shopify_service.py : bulk polling loop

fetch_all_product_handles_bulk and fetch_all_products_bulk_full run the same
polling loop: check currentBulkOperation, break on COMPLETED, raise on
FAILED or CANCELED, raise when the wall clock passes the timeout ceiling,
else sleep a fixed interval and poll again.  The embedding takes the finite
sequence of status observations the fixed-interval clock allows before the
ceiling; exhausting it models polling past the ceiling. -/

/-- Outcome of one bulk-export run. -/
inductive BulkOutcome where
  | download (url : String) : BulkOutcome
  | emptyResult : BulkOutcome
  | jobError : BulkOutcome
  | timeoutError : BulkOutcome
deriving DecidableEq

/-- Polling loop shared by the two bulk fetchers; each observation is the
status and url fields of currentBulkOperation.  COMPLETED with a truthy url
leads to downloading and parsing that url; COMPLETED without one returns an
empty result without downloading; FAILED and CANCELED raise RuntimeError;
running out of observations models exceeding the timeout and raises
TimeoutError. -/
def pollBulkLoop : List (Option String × Option String) → BulkOutcome
  | [] => .timeoutError
  | obs :: rest =>
      if obs.1 = some "COMPLETED" then
        match obs.2 with
        | some u => if u ≠ "" then .download u else .emptyResult
        | none => .emptyResult
      else if obs.1 = some "FAILED" ∨ obs.1 = some "CANCELED" then .jobError
      else pollBulkLoop rest

/-! ## app/services/shopify_service.py : process_bulk_results -/

/-- Line of the newline-delimited bulk result file, with the fields the
GraphQL bulk query requests.  A named metafield sub-object is
Option (Option String): the outer layer is key-present-and-truthy, the inner
layer is its value entry. -/
structure BulkLine where
  typename : Option String
  id : Option String
  parentId : Option String
  handle : Option String
  title : Option String
  bodyHtml : Option String
  vendor : Option String
  productType : Option String
  tags : List String
  options : List (Option String × List String)
  price : Option String
  sku : Option String
  inventoryQuantity : Option Int
  selectedOptions : List (Option String)
  url : Option String
  key : Option String
  value : Option String
  verwandte_produkte : Option (Option String)
  inventarbestand : Option (Option String)
  stock_next_delivery : Option (Option String)
  warranty_group : Option (Option String)
  price_b2b_regular : Option (Option String)
  price_b2b_discounted : Option (Option String)
  ram : Option (Option String)
  prozessor : Option (Option String)
  prozessorfamilie : Option (Option String)
  gpu : Option (Option String)
  speicher : Option (Option String)
  bildschirmdiagonale : Option (Option String)
  metafieldEdges : List (Option String × Option String)
deriving DecidableEq

/-- Buckets built by the first pass of process_bulk_results. -/
structure BulkBuckets where
  products : List (String × BulkLine)
  variantsByParent : List (String × List BulkLine)
  imagesByParent : List (String × List BulkLine)
  metafieldsByParent : List (String × List (String × BulkLine))

/-- First-pass step of process_bulk_results: partition one line by its type
discriminator, child lines keyed by their truthy parent reference. -/
def bucketLine (b : BulkBuckets) (node : BulkLine) : BulkBuckets :=
  if node.typename = some "Product" then
    match node.id with
    | some pid => if pid ≠ "" then { b with products := dictSet pid node b.products } else b
    | none => b
  else if node.typename = some "ProductVariant" then
    match node.parentId with
    | some pa =>
        if pa ≠ "" then { b with variantsByParent := dictAppend pa node b.variantsByParent }
        else b
    | none => b
  else if node.typename = some "ProductImage" then
    match node.parentId with
    | some pa =>
        if pa ≠ "" then { b with imagesByParent := dictAppend pa node b.imagesByParent }
        else b
    | none => b
  else if node.typename = some "Metafield" then
    match node.parentId with
    | some pa =>
        if pa ≠ "" then
          match node.key with
          | some k =>
              if k ≠ "" then
                let cur := (dictGet pa b.metafieldsByParent).getD []
                { b with metafieldsByParent := dictSet pa (dictSet k node cur) b.metafieldsByParent }
              else b
          | none => b
        else b
    | none => b
  else b

/-- Variant dict mapped from a parent-linked ProductVariant line.  The bulk
query requests neither inventoryManagement, inventoryPolicy nor weight, so
those lookups yield None. -/
structure MappedVariant where
  id : Option Int
  price : Option String
  sku : Option String
  inventory_quantity : Option Int
  inventory_management : Option String
  inventory_policy : Option String
  weight : Option ℚ
  option1 : Option String
  option2 : Option String
  option3 : Option String
deriving DecidableEq

/-- Mapping of one ProductVariant line. -/
def mapVariantNode (v : BulkLine) : MappedVariant :=
  let sel := v.selectedOptions
  { id := gid_to_numeric_id v.id
    price := v.price
    sku := v.sku
    inventory_quantity := v.inventoryQuantity
    inventory_management := none
    inventory_policy := none
    weight := none
    option1 := sel.getD 0 none
    option2 := sel.getD 1 none
    option3 := sel.getD 2 none }

/-- Product dict mapped by the second pass.  The source omits the options,
metafields, variants and images keys when empty; the carried collections are
the same, so they are plain lists here. -/
structure MappedProduct where
  id : Option Int
  handle : Option String
  title : Option String
  body_html : Option String
  vendor : Option String
  product_type : Option String
  tags : List String
  options : List (Option String × List String)
  metafields : List (String × Json)
  variants : List MappedVariant
  images : List String

/-- Json image of an optional raw metafield value. -/
def jsonOfOpt : Option String → Json
  | some s => .str s
  | none => .null

/-- Named-metafield extraction step: when the sub-object is present and
truthy, parse its value entry and store it under the target key. -/
def addNamed (target : String) (sub : Option (Option String)) (d : List (String × Json)) :
    List (String × Json) :=
  match sub with
  | some raw => dictSet target (parse_metafield_value (jsonOfOpt raw)) d
  | none => d

/-- Mapping of one root Product line with its bucketed children, mirroring
the body of the second-pass loop.  The children bucketed under
metafieldsByParent are not consulted here, exactly as in the source. -/
def mapProductNode (b : BulkBuckets) (pid : String) (node : BulkLine) : MappedProduct :=
  let mfs : List (String × Json) := []
  let mfs := addNamed "verwandte_produkte" node.verwandte_produkte mfs
  let mfs := addNamed "Inventarbestand" node.inventarbestand mfs
  let mfs := addNamed "StockNextDelivery" node.stock_next_delivery mfs
  let mfs := addNamed "warranty_group" node.warranty_group mfs
  let mfs := addNamed "Price_B2B_Regular" node.price_b2b_regular mfs
  let mfs := addNamed "Price_B2B_Discounted" node.price_b2b_discounted mfs
  let mfs := addNamed "RAM" node.ram mfs
  let mfs := addNamed "Prozessor" node.prozessor mfs
  let mfs := addNamed "Prozessorfamilie" node.prozessorfamilie mfs
  let mfs := addNamed "GPU" node.gpu mfs
  let mfs := addNamed "Speicher" node.speicher mfs
  let mfs := addNamed "Bildschirmdiagonale" node.bildschirmdiagonale mfs
  let mfs := node.metafieldEdges.foldl
    (fun d e =>
      match e.1 with
      | some k => if k ≠ "" then dictSet k (jsonOfOpt e.2) d else d
      | none => d) mfs
  { id := gid_to_numeric_id node.id
    handle := node.handle
    title := node.title
    body_html := node.bodyHtml
    vendor := node.vendor
    product_type := node.productType
    tags := node.tags
    options := node.options.map (fun o => (o.1, o.2))
    metafields := mfs
    variants := ((dictGet pid b.variantsByParent).getD []).map mapVariantNode
    images := ((dictGet pid b.imagesByParent).getD []).filterMap
      (fun im =>
        match im.url with
        | some src => if src ≠ "" then some src else none
        | none => none) }

/-- Second-pass loop of process_bulk_results over the root products in
insertion order, dropping a root whose truthy handle was already seen. -/
def mapLoop (b : BulkBuckets) (seen : List String) :
    List (String × BulkLine) → List MappedProduct
  | [] => []
  | (pid, node) :: rest =>
      match node.handle with
      | some h =>
          if h ≠ "" ∧ h ∈ seen then mapLoop b seen rest
          else
            mapProductNode b pid node ::
              mapLoop b (if h ≠ "" then h :: seen else seen) rest
      | none => mapProductNode b pid node :: mapLoop b seen rest

/-- Embedding of process_bulk_results: bucket the flat line stream, then
rebuild one mapped product per de-duplicated root line. -/
def process_bulk_results (results_raw : List BulkLine) : List MappedProduct :=
  let b := results_raw.foldl bucketLine ⟨[], [], [], []⟩
  mapLoop b [] b.products

/-! ## Reconciliation differ -/

/-- SyncPlan of the spec: three operation sets keyed by handle plus the
recorded unchanged handles. -/
structure SyncPlan where
  toCreate : List String
  toUpdate : List String
  toDelete : List String
  unchanged : List String
deriving DecidableEq

/-- Modelled from the spec: sync_with_database and its comparison helpers
are called from the API layer but their definitions are not among the source
files.  The spec defines the differ on the two handle-keyed indexes by
toCreate = desired minus actual, toDelete = actual minus desired, toUpdate =
handles in both whose normalized projections differ, and unchanged handles
recorded with no operation; norm is the normalized projection. -/
def computeSyncPlan (norm : α → β) [DecidableEq β] (desired actual : List (String × α)) :
    SyncPlan :=
  { toCreate := (desired.filter (fun kv => (dictGet kv.1 actual).isNone)).map Prod.fst
    toUpdate := (desired.filter (fun kv =>
      match dictGet kv.1 actual with
      | some a => decide (norm kv.2 ≠ norm a)
      | none => false)).map Prod.fst
    toDelete := (actual.filter (fun kv => (dictGet kv.1 desired).isNone)).map Prod.fst
    unchanged := (desired.filter (fun kv =>
      match dictGet kv.1 actual with
      | some a => decide (norm kv.2 = norm a)
      | none => false)).map Prod.fst }

/-- Permutations of a list by inserting the head everywhere, used to state
order-insensitivity of the bulk reassembly. -/
def myPerms : List α → List (List α)
  | [] => [[]]
  | x :: xs => (myPerms xs).flatMap (fun p => insEverywhere x p)
where
  insEverywhere (x : α) : List α → List (List α)
    | [] => [[x]]
    | y :: ys => (x :: y :: ys) :: (insEverywhere x ys).map (fun p => y :: p)

/-! ## Shared lemmas about the dictionary model -/

theorem dictGet_none_iff [DecidableEq κ] (k : κ) (l : List (κ × α)) :
    dictGet k l = none ↔ k ∉ l.map Prod.fst := by
  induction l with
  | nil => simp [dictGet]
  | cons a l ih =>
      obtain ⟨k₁, v₁⟩ := a
      by_cases h : k₁ = k
      · subst h
        simp [dictGet]
      · simp [dictGet, h, ih, Ne.symm h]

theorem dictGet_some_of_mem [DecidableEq κ] {k : κ} {v : α} {l : List (κ × α)}
    (hnd : (l.map Prod.fst).Nodup) (hmem : (k, v) ∈ l) : dictGet k l = some v := by
  induction l with
  | nil => simp at hmem
  | cons a l ih =>
      obtain ⟨k₁, v₁⟩ := a
      simp only [List.map_cons, List.nodup_cons] at hnd
      rcases List.mem_cons.mp hmem with h | h
      · have hk : k = k₁ := congrArg Prod.fst h
        have hv : v = v₁ := congrArg Prod.snd h
        subst hk
        subst hv
        simp [dictGet]
      · have hk : k₁ ≠ k := by
          intro he
          exact hnd.1 (he ▸ (List.mem_map.mpr ⟨(k, v), h, rfl⟩))
        simp [dictGet, hk, ih hnd.2 h]

theorem mem_of_dictGet_some [DecidableEq κ] {k : κ} {v : α} {l : List (κ × α)}
    (h : dictGet k l = some v) : (k, v) ∈ l := by
  induction l with
  | nil => simp [dictGet] at h
  | cons a l ih =>
      obtain ⟨k₁, v₁⟩ := a
      by_cases hk : k₁ = k
      · subst hk
        simp [dictGet] at h
        simp [h]
      · simp [dictGet, hk] at h
        exact List.mem_cons_of_mem _ (ih h)

/-! ## C6 : optional-metafield sync behavior -/

/-- Claim C6: For each of the optional metafields StockNextDelivery and
verwandte_produkte during a product update: an empty desired value emits
exactly a delete call when a remote metafield with that key (and its
identifier) is present, and no call at all otherwise — in particular never
an update-to-empty; a non-empty desired value updates in place when the
identifier is known and creates the metafield otherwise. -/
theorem metafield_sync_delete_on_empty_and_upsert (product_id : Int)
    (remote : List RemoteMetafield) (desired : Option String) :
    ((truthyS desired = false →
        (∀ i, targetId (findTarget "StockNextDelivery" remote) = some i →
          _sync_stock_next_delivery_metafield product_id remote desired =
            [.deleteCall i]) ∧
        (targetId (findTarget "StockNextDelivery" remote) = none →
          _sync_stock_next_delivery_metafield product_id remote desired = [])) ∧
      (truthyS desired = true →
        (∀ i, targetId (findTarget "StockNextDelivery" remote) = some i →
          _sync_stock_next_delivery_metafield product_id remote desired =
            [.updateCall i (pyStrOr desired "") "single_line_text_field"]) ∧
        (targetId (findTarget "StockNextDelivery" remote) = none →
          _sync_stock_next_delivery_metafield product_id remote desired =
            [.createCall "StockNextDelivery" (pyStrOr desired "")
              "single_line_text_field" product_id]))) ∧
    ((truthyS desired = false →
        (∀ i, targetId (findTarget "verwandte_produkte" remote) = some i →
          _sync_accessory_products_metafield product_id remote desired =
            [.deleteCall i]) ∧
        (targetId (findTarget "verwandte_produkte" remote) = none →
          _sync_accessory_products_metafield product_id remote desired = [])) ∧
      (truthyS desired = true →
        (∀ i, targetId (findTarget "verwandte_produkte" remote) = some i →
          _sync_accessory_products_metafield product_id remote desired =
            [.updateCall i (pyStrOr desired "") "json"]) ∧
        (targetId (findTarget "verwandte_produkte" remote) = none →
          _sync_accessory_products_metafield product_id remote desired =
            [.createCall "verwandte_produkte" (pyStrOr desired "") "json" product_id]))) := by
  refine ⟨⟨?_, ?_⟩, ⟨?_, ?_⟩⟩ <;>
    intro hdes <;>
    constructor <;>
    first
      | (intro i hi
         simp [_sync_stock_next_delivery_metafield, _sync_accessory_products_metafield,
           syncOptionalMetafield, hdes, hi])
      | (intro hi
         simp [_sync_stock_next_delivery_metafield, _sync_accessory_products_metafield,
           syncOptionalMetafield, hdes, hi])

/-- Witness for C6: a concrete empty desired value with an existing remote
metafield yields exactly one delete call. -/
theorem metafield_sync_delete_on_empty_and_upsert_witness :
    _sync_stock_next_delivery_metafield 5
      [{ ns := "custom", key := "StockNextDelivery", id := some 7 }] (some "") =
      [.deleteCall 7] :=
  ((metafield_sync_delete_on_empty_and_upsert 5
      [{ ns := "custom", key := "StockNextDelivery", id := some 7 }] (some "")).1.1
    (by decide)).1 7 (by decide)

/-! ## C7 : bulk polling hard errors -/

/-- Observation on which the polling loop stops looping. -/
def decisive (o : Option String × Option String) : Bool :=
  o.1 = some "COMPLETED" ∨ o.1 = some "FAILED" ∨ o.1 = some "CANCELED"

/-- Claim C7: For every sequence of bulk-job status observations: a FAILED or
CANCELED status observed before any COMPLETED raises the hard job error; a
sequence that never turns decisive within the timeout window raises the hard
timeout error; and a download happens only when a COMPLETED status (with its
url) was observed first. -/
theorem bulk_polling_terminal_behavior (obs : List (Option String × Option String)) :
    ((∀ o ∈ obs, decisive o = false) → pollBulkLoop obs = .timeoutError) ∧
    (∀ pre o rest, obs = pre ++ o :: rest → (∀ p ∈ pre, decisive p = false) →
      (o.1 = some "FAILED" ∨ o.1 = some "CANCELED") → pollBulkLoop obs = .jobError) ∧
    (∀ u, pollBulkLoop obs = .download u →
      ∃ pre rest, obs = pre ++ (some "COMPLETED", some u) :: rest ∧
        ∀ p ∈ pre, decisive p = false) := by
  induction obs with
  | nil =>
      refine ⟨fun _ => rfl, ?_, ?_⟩
      · intro pre o rest habs
        simp at habs
      · intro u habs
        simp [pollBulkLoop] at habs
  | cons o₀ rest ih =>
      refine ⟨?_, ?_, ?_⟩
      · intro hall
        have h₀ := hall o₀ (List.mem_cons_self _ _)
        simp [decisive] at h₀
        simp [pollBulkLoop, h₀.1, h₀.2.1, h₀.2.2]
        exact ih.1 (fun o ho => hall o (List.mem_cons_of_mem _ ho))
      · intro pre o tail heq hpre hfc
        cases pre with
        | nil =>
            simp at heq
            obtain ⟨h₁, h₂⟩ := heq
            subst h₁
            have hnc : o₀.1 ≠ some "COMPLETED" := by
              rcases hfc with h | h <;> simp [h]
            simp [pollBulkLoop, hnc, hfc]
        | cons p ps =>
            simp at heq
            obtain ⟨h₁, h₂⟩ := heq
            subst h₁
            have hp := hpre o₀ (List.mem_cons_self _ _)
            simp [decisive] at hp
            simp [pollBulkLoop, hp.1, hp.2.1, hp.2.2]
            exact ih.2.1 ps o tail h₂ (fun q hq => hpre q (List.mem_cons_of_mem _ hq)) hfc
      · intro u hdl
        by_cases hc : o₀.1 = some "COMPLETED"
        · refine ⟨[], rest, ?_, by simp⟩
          simp only [pollBulkLoop, hc, if_pos rfl] at hdl
          have : o₀.2 = some u := by
            cases h₂ : o₀.2 with
            | none => simp [h₂] at hdl
            | some v =>
                simp [h₂] at hdl
                by_cases hv : v = ""
                · simp [hv] at hdl
                · simp [hv] at hdl
                  simp [hdl]
          obtain ⟨a, b⟩ := o₀
          simp at hc this
          simp [hc, this]
        · by_cases hfc : o₀.1 = some "FAILED" ∨ o₀.1 = some "CANCELED"
          · simp [pollBulkLoop, hc, hfc] at hdl
          · push_neg at hfc
            have hrest : pollBulkLoop rest = .download u := by
              simpa [pollBulkLoop, hc, hfc.1, hfc.2] using hdl
            obtain ⟨pre, tail, heq, hpre⟩ := ih.2.2 u hrest
            refine ⟨o₀ :: pre, tail, by simp [heq], ?_⟩
            intro p hp
            rcases List.mem_cons.mp hp with h | h
            · subst h
              simp [decisive, hc, hfc.1, hfc.2]
            · exact hpre p h

/-- Witness for C7: a concrete run that observes RUNNING and then FAILED
raises the hard job error. -/
theorem bulk_polling_terminal_behavior_witness :
    pollBulkLoop [(some "RUNNING", none), (some "FAILED", none)] = .jobError :=
  (bulk_polling_terminal_behavior [(some "RUNNING", none), (some "FAILED", none)]).2.1
    [(some "RUNNING", none)] (some "FAILED", none) [] (by decide) (by decide) (by decide)

/-! ## C10 : option invariant of the Variant Expander -/

theorem dedupFirstAux_nodup [DecidableEq α] (seen : List α) (l : List α) :
    (dedupFirstAux seen l).Nodup ∧ ∀ x ∈ dedupFirstAux seen l, x ∉ seen := by
  induction l generalizing seen with
  | nil => simp [dedupFirstAux]
  | cons x xs ih =>
      by_cases hx : x ∈ seen
      · simpa [dedupFirstAux, hx] using ih seen
      · have h₂ := ih (x :: seen)
        refine ⟨?_, ?_⟩
        · simp only [dedupFirstAux, if_neg hx, List.nodup_cons]
          exact ⟨fun hmem => by simpa using (h₂.2 x hmem), h₂.1⟩
        · intro y hy
          simp only [dedupFirstAux, if_neg hx, List.mem_cons] at hy
          rcases hy with h | h
          · exact h ▸ hx
          · intro hseen
            exact (h₂.2 y h) (List.mem_cons_of_mem _ hseen)

/-- Claim C10: Every Shopify product record produced by the Variant Expander has
exactly one option, named Garantie, whose value list is duplicate-free,
regardless of the number of variants. -/
theorem single_garantie_option_invariant (g : GroupedProduct) :
    ((_create_shopify_product g).product.options.length = 1) ∧
    (∀ o ∈ (_create_shopify_product g).product.options,
      o.name = "Garantie" ∧ o.values.Nodup) := by
  refine ⟨rfl, ?_⟩
  intro o ho
  simp only [_create_shopify_product, List.mem_singleton] at ho
  subst ho
  exact ⟨rfl, (dedupFirstAux_nodup [] _).1⟩

/-! ## C1 : the reconciliation differ -/

theorem mem_keys_iff (l : List (String × α)) (h : String) :
    h ∈ l.map Prod.fst ↔ ∃ v, (h, v) ∈ l := by
  constructor
  · intro hmem
    obtain ⟨kv, hkv, hfst⟩ := List.mem_map.mp hmem
    obtain ⟨k, v⟩ := kv
    cases hfst
    exact ⟨v, hkv⟩
  · rintro ⟨v, hin⟩
    exact List.mem_map.mpr ⟨(h, v), hin, rfl⟩

theorem mem_filter_map_fst (l : List (String × α)) (P : String × α → Bool) (h : String) :
    h ∈ (l.filter P).map Prod.fst ↔ ∃ v, (h, v) ∈ l ∧ P (h, v) = true := by
  constructor
  · intro hmem
    obtain ⟨kv, hkv, hfst⟩ := List.mem_map.mp hmem
    obtain ⟨hin, hp⟩ := List.mem_filter.mp hkv
    obtain ⟨k, v⟩ := kv
    cases hfst
    exact ⟨v, hin, hp⟩
  · rintro ⟨v, hin, hp⟩
    exact List.mem_map.mpr ⟨(h, v), List.mem_filter.mpr ⟨hin, hp⟩, rfl⟩

/-- Claim C1: For every desired-state index and actual-state index keyed by
handle (spec-modelled differ): toCreate is exactly the handles in desired
but not actual, toDelete exactly those in actual but not desired, toUpdate
exactly those in both whose normalized projections differ, unchanged exactly
those in both with equal projections — and a handle in both with equal
projections receives no operation at all. -/
theorem computeSyncPlan_partition (norm : α → β) [DecidableEq β]
    (desired actual : List (String × α))
    (hd : (desired.map Prod.fst).Nodup) (ha : (actual.map Prod.fst).Nodup) (h : String) :
    (h ∈ (computeSyncPlan norm desired actual).toCreate ↔
      h ∈ desired.map Prod.fst ∧ h ∉ actual.map Prod.fst) ∧
    (h ∈ (computeSyncPlan norm desired actual).toDelete ↔
      h ∈ actual.map Prod.fst ∧ h ∉ desired.map Prod.fst) ∧
    (h ∈ (computeSyncPlan norm desired actual).toUpdate ↔
      ∃ d a, dictGet h desired = some d ∧ dictGet h actual = some a ∧ norm d ≠ norm a) ∧
    (h ∈ (computeSyncPlan norm desired actual).unchanged ↔
      ∃ d a, dictGet h desired = some d ∧ dictGet h actual = some a ∧ norm d = norm a) ∧
    (∀ d a, dictGet h desired = some d → dictGet h actual = some a → norm d = norm a →
      h ∉ (computeSyncPlan norm desired actual).toCreate ∧
      h ∉ (computeSyncPlan norm desired actual).toUpdate ∧
      h ∉ (computeSyncPlan norm desired actual).toDelete) := by
  have hcreate : h ∈ (computeSyncPlan norm desired actual).toCreate ↔
      h ∈ desired.map Prod.fst ∧ h ∉ actual.map Prod.fst := by
    rw [show (computeSyncPlan norm desired actual).toCreate =
      (desired.filter (fun kv => (dictGet kv.1 actual).isNone)).map Prod.fst from rfl]
    rw [mem_filter_map_fst]
    constructor
    · rintro ⟨v, hin, hp⟩
      simp only [Option.isNone_iff_eq_none] at hp
      exact ⟨(mem_keys_iff _ _).mpr ⟨v, hin⟩, (dictGet_none_iff _ _).mp hp⟩
    · rintro ⟨hmem, hnot⟩
      obtain ⟨v, hin⟩ := (mem_keys_iff _ _).mp hmem
      refine ⟨v, hin, ?_⟩
      simp only [Option.isNone_iff_eq_none]
      exact (dictGet_none_iff _ _).mpr hnot
  have hdelete : h ∈ (computeSyncPlan norm desired actual).toDelete ↔
      h ∈ actual.map Prod.fst ∧ h ∉ desired.map Prod.fst := by
    rw [show (computeSyncPlan norm desired actual).toDelete =
      (actual.filter (fun kv => (dictGet kv.1 desired).isNone)).map Prod.fst from rfl]
    rw [mem_filter_map_fst]
    constructor
    · rintro ⟨v, hin, hp⟩
      simp only [Option.isNone_iff_eq_none] at hp
      exact ⟨(mem_keys_iff _ _).mpr ⟨v, hin⟩, (dictGet_none_iff _ _).mp hp⟩
    · rintro ⟨hmem, hnot⟩
      obtain ⟨v, hin⟩ := (mem_keys_iff _ _).mp hmem
      refine ⟨v, hin, ?_⟩
      simp only [Option.isNone_iff_eq_none]
      exact (dictGet_none_iff _ _).mpr hnot
  have hupdate : h ∈ (computeSyncPlan norm desired actual).toUpdate ↔
      ∃ d a, dictGet h desired = some d ∧ dictGet h actual = some a ∧ norm d ≠ norm a := by
    rw [show (computeSyncPlan norm desired actual).toUpdate =
      (desired.filter (fun kv =>
        match dictGet kv.1 actual with
        | some a => decide (norm kv.2 ≠ norm a)
        | none => false)).map Prod.fst from rfl]
    rw [mem_filter_map_fst]
    constructor
    · rintro ⟨v, hin, hp⟩
      cases hga : dictGet h actual with
      | none => rw [hga] at hp; simp at hp
      | some a =>
          rw [hga] at hp
          simp only [decide_eq_true_eq] at hp
          exact ⟨v, a, dictGet_some_of_mem hd hin, rfl, hp⟩
    · rintro ⟨d, a, hgd, hga, hne⟩
      refine ⟨d, mem_of_dictGet_some hgd, ?_⟩
      show (match dictGet h actual with
        | some a => decide (norm d ≠ norm a)
        | none => false) = true
      rw [hga]
      simpa using hne
  have hunchanged : h ∈ (computeSyncPlan norm desired actual).unchanged ↔
      ∃ d a, dictGet h desired = some d ∧ dictGet h actual = some a ∧ norm d = norm a := by
    rw [show (computeSyncPlan norm desired actual).unchanged =
      (desired.filter (fun kv =>
        match dictGet kv.1 actual with
        | some a => decide (norm kv.2 = norm a)
        | none => false)).map Prod.fst from rfl]
    rw [mem_filter_map_fst]
    constructor
    · rintro ⟨v, hin, hp⟩
      cases hga : dictGet h actual with
      | none => rw [hga] at hp; simp at hp
      | some a =>
          rw [hga] at hp
          simp only [decide_eq_true_eq] at hp
          exact ⟨v, a, dictGet_some_of_mem hd hin, rfl, hp⟩
    · rintro ⟨d, a, hgd, hga, heq⟩
      refine ⟨d, mem_of_dictGet_some hgd, ?_⟩
      show (match dictGet h actual with
        | some a => decide (norm d = norm a)
        | none => false) = true
      rw [hga]
      simpa using heq
  refine ⟨hcreate, hdelete, hupdate, hunchanged, ?_⟩
  intro d a hgd hga heq
  refine ⟨?_, ?_, ?_⟩
  · intro hc
    have := (hcreate.mp hc).2
    exact this (List.mem_map.mpr ⟨(h, a), mem_of_dictGet_some hga, rfl⟩)
  · intro hu
    obtain ⟨d₁, a₁, hgd₁, hga₁, hne⟩ := hupdate.mp hu
    rw [hgd] at hgd₁
    rw [hga] at hga₁
    cases hgd₁
    cases hga₁
    exact hne heq
  · intro hdel
    have := (hdelete.mp hdel).2
    exact this (List.mem_map.mpr ⟨(h, d), mem_of_dictGet_some hgd, rfl⟩)

/-- Witness for C1: on a concrete pair of indexes, a handle present only in
the desired index lands in toCreate. -/
theorem computeSyncPlan_partition_witness :
    "a" ∈ (computeSyncPlan (fun n => n) [("a", 1), ("b", 2)] [("b", 3), ("c", 4)]).toCreate :=
  (computeSyncPlan_partition (fun n : ℕ => n) [("a", 1), ("b", 2)] [("b", 3), ("c", 4)]
      (by decide) (by decide) "a").1.mpr ⟨by decide, by decide⟩

/-! ## C8 : parse_metafield_value (array-like JSON only) -/

/-- Counterexample to C8 as stated: the string 123 is a JSON-encoded value
(json.loads decodes it to the number 123), yet parse_metafield_value returns
it unchanged rather than decoding it — only bracketed array-like strings are
decoded. -/
theorem parse_metafield_value_json_counterexample :
    parse_metafield_value (.str "123") = .str "123" ∧
    jsonLoads "123" = some (.num 123) :=
  ⟨rfl, rfl⟩

/-- Claim C8 amended: parse_metafield_value decodes exactly the string values
whose stripped form is bracket-delimited ([ .. ], a JSON array form) or
quote-bracket-delimited (a JSON string containing a bracketed JSON value,
decoded twice); every other value — including every non-string and every
string on which decoding fails — passes through unchanged. -/
theorem parse_metafield_value_array_only :
    (∀ v : Json, (∀ s, v ≠ .str s) → parse_metafield_value v = v) ∧
    (∀ s, ((headIs '[' (pyStrip s) && lastIs ']' (pyStrip s)) ||
           (headIs2 '"' '[' (pyStrip s) && lastIs2 ']' '"' (pyStrip s))) = false →
      parse_metafield_value (.str s) = .str s) ∧
    (∀ s j, s ≠ "" → headIs '[' (pyStrip s) = true → lastIs ']' (pyStrip s) = true →
      jsonLoads (pyStrip s) = some j → parse_metafield_value (.str s) = j) ∧
    (∀ s, s ≠ "" → headIs '[' (pyStrip s) = true → lastIs ']' (pyStrip s) = true →
      jsonLoads (pyStrip s) = none → parse_metafield_value (.str s) = .str s) ∧
    (∀ s inner j, s ≠ "" →
      (headIs '[' (pyStrip s) && lastIs ']' (pyStrip s)) = false →
      headIs2 '"' '[' (pyStrip s) = true → lastIs2 ']' '"' (pyStrip s) = true →
      jsonLoads (pyStrip s) = some (.str inner) → jsonLoads inner = some j →
      parse_metafield_value (.str s) = j) ∧
    (parse_metafield_value (.str "[\"a\", \"b\"]") = .arr [.str "a", .str "b"]) ∧
    (parse_metafield_value (.str "\"[\\\"a\\\", \\\"b\\\"]\"") = .arr [.str "a", .str "b"]) := by
  refine ⟨?_, ?_, ?_, ?_, ?_, rfl, rfl⟩
  · intro v hv
    cases v with
    | str s => exact absurd rfl (hv s)
    | null => rfl
    | bool b => cases b <;> rfl
    | num n => by_cases h : n = 0 <;> simp [parse_metafield_value, pyFalsy, h]
    | arr l => by_cases h : l.isEmpty <;> simp [parse_metafield_value, pyFalsy, h]
    | obj l => by_cases h : l.isEmpty <;> simp [parse_metafield_value, pyFalsy, h]
  · intro s hcond
    by_cases hs : s = ""
    · simp [parse_metafield_value, pyFalsy, hs]
    · simp only [Bool.or_eq_false_iff, Bool.and_eq_false_iff] at hcond
      simp only [parse_metafield_value, pyFalsy, hs]
      rcases hcond with ⟨h₁, h₂⟩
      rcases h₁ with h₁ | h₁ <;> rcases h₂ with h₂ | h₂ <;>
        simp [hs, h₁, h₂]
  · intro s j hs h₁ h₂ hload
    simp [parse_metafield_value, pyFalsy, hs, h₁, h₂, hload]
  · intro s hs h₁ h₂ hload
    simp [parse_metafield_value, pyFalsy, hs, h₁, h₂, hload]
  · intro s inner j hs hnot h₁ h₂ hload₁ hload₂
    simp only [Bool.and_eq_false_iff] at hnot
    rcases hnot with h | h <;>
      simp [parse_metafield_value, pyFalsy, hs, h, h₁, h₂, hload₁, hload₂]

/-- Witness for C8 amended: a non-string value passes through unchanged. -/
theorem parse_metafield_value_array_only_witness :
    parse_metafield_value (.num 5) = .num 5 :=
  parse_metafield_value_array_only.1 (.num 5) (fun s h => Json.noConfusion h)

/-! ## C4 : the Record Merger -/

theorem dictGet_dictSet_self [DecidableEq κ] (k : κ) (v : α) (d : List (κ × α)) :
    dictGet k (dictSet k v d) = some v := by
  induction d with
  | nil => simp [dictSet, dictGet]
  | cons a d ih =>
      obtain ⟨k₁, v₁⟩ := a
      by_cases h : k₁ = k
      · simp [dictSet, dictGet, h]
      · simp [dictSet, dictGet, h, ih]

theorem dictGet_dictSet_ne [DecidableEq κ] {k' k : κ} (hne : k' ≠ k) (v : α)
    (d : List (κ × α)) : dictGet k (dictSet k' v d) = dictGet k d := by
  induction d with
  | nil => simp [dictSet, dictGet, hne]
  | cons a d ih =>
      obtain ⟨k₁, v₁⟩ := a
      by_cases h : k₁ = k'
      · subst h
        simp [dictSet, dictGet, hne]
      · by_cases h₂ : k₁ = k
        · subst h₂
          simp [dictSet, dictGet, h]
        · simp [dictSet, dictGet, h, h₂, ih]

theorem dictGet_dictAppend_self [DecidableEq κ] (k : κ) (v : α) (d : List (κ × List α)) :
    dictGet k (dictAppend k v d) = some ((dictGet k d).getD [] ++ [v]) := by
  cases h : dictGet k d with
  | none => simp [dictAppend, h, dictGet_dictSet_self]
  | some l => simp [dictAppend, h, dictGet_dictSet_self]

theorem dictGet_dictAppend_ne [DecidableEq κ] {k' k : κ} (hne : k' ≠ k) (v : α)
    (d : List (κ × List α)) : dictGet k (dictAppend k' v d) = dictGet k d := by
  cases h : dictGet k' d with
  | none => simp [dictAppend, h, dictGet_dictSet_ne hne]
  | some l => simp [dictAppend, h, dictGet_dictSet_ne hne]

theorem dictGet_map_value [DecidableEq κ] (k : κ) (f : α → β) (l : List (κ × α)) :
    dictGet k (l.map (fun kv => (kv.1, f kv.2))) = (dictGet k l).map f := by
  induction l with
  | nil => simp [dictGet]
  | cons a l ih =>
      obtain ⟨k₁, v₁⟩ := a
      by_cases h : k₁ = k
      · simp [dictGet, h]
      · simp [dictGet, h, ih]

theorem insertPrimaryDesc_length (x : ImageRow) (l : List ImageRow) :
    (insertPrimaryDesc x l).length = l.length + 1 := by
  induction l with
  | nil => rfl
  | cons y ys ih =>
      by_cases h : toIntD x.isPrimary ≤ toIntD y.isPrimary
      · simp [insertPrimaryDesc, h, ih]
      · simp [insertPrimaryDesc, h]

theorem sortPrimaryFirst_aux_length (l acc : List ImageRow) :
    (l.foldl (fun a x => insertPrimaryDesc x a) acc).length = acc.length + l.length := by
  induction l generalizing acc with
  | nil => simp
  | cons x xs ih =>
      simp only [List.foldl_cons, ih, insertPrimaryDesc_length, List.length_cons]
      omega

theorem sortPrimaryFirst_eq_nil_iff (l : List ImageRow) :
    sortPrimaryFirst l = [] ↔ l = [] := by
  constructor
  · intro h
    have := sortPrimaryFirst_aux_length l []
    rw [show l.foldl (fun a x => insertPrimaryDesc x a) [] = sortPrimaryFirst l from rfl, h] at this
    simpa using List.length_eq_zero.mp (by simpa using this.symm)
  · rintro rfl
    rfl

theorem imagesByProduct_foldl_get (images : List ImageRow)
    (d : List (String × List ImageRow)) (s : String) (hs : s ≠ "") :
    dictGet s (images.foldl
      (fun d im =>
        match im.supplier_aid with
        | some t => if t ≠ "" then dictAppend t im d else d
        | none => d) d) =
    (match dictGet s d with
     | some l => some (l ++ images.filter (fun im => im.supplier_aid = some s))
     | none =>
        if images.filter (fun im => im.supplier_aid = some s) = [] then none
        else some (images.filter (fun im => im.supplier_aid = some s))) := by
  induction images generalizing d with
  | nil => cases h : dictGet s d <;> simp [h]
  | cons im rest ih =>
      simp only [List.foldl_cons]
      cases ha : im.supplier_aid with
      | none =>
          rw [ih d]
          have hf : (im.supplier_aid = some s) = False := by simp [ha]
          simp only [List.filter_cons, ha]
          cases h : dictGet s d <;> simp [h]
      | some t =>
          by_cases ht : t = ""
          · subst ht
            have hts : ¬ (im.supplier_aid = some s) := by simp [ha, Ne.symm hs]
            simp only [ha, ne_eq, not_true_eq_false, if_false, ite_false]
            rw [ih d]
            simp only [List.filter_cons, decide_eq_true_eq]
            cases h : dictGet s d <;> simp [h, hts]
          · by_cases hts : t = s
            · subst hts
              simp only [ha, ne_eq, ht, not_false_eq_true, if_true, ite_true]
              rw [ih (dictAppend t im d)]
              have hmem : (im.supplier_aid = some t) := ha
              rw [dictGet_dictAppend_self]
              simp only [List.filter_cons, decide_eq_true_eq]
              cases h : dictGet t d with
              | none => simp [h, hmem]
              | some l => simp [h, hmem]
            · have hne : ¬ (im.supplier_aid = some s) := by simp [ha, hts]
              simp only [ha, ne_eq, ht, not_false_eq_true, if_true, ite_true]
              rw [ih (dictAppend t im d), dictGet_dictAppend_ne hts]
              simp only [List.filter_cons, decide_eq_true_eq]
              cases h : dictGet s d <;> simp [h, hne]

theorem imagesByProduct_get (images : List ImageRow) (s : String) (hs : s ≠ "") :
    dictGet s (imagesByProduct images) =
    (if images.filter (fun im => im.supplier_aid = some s) = [] then none
     else some (images.filter (fun im => im.supplier_aid = some s))) := by
  rw [show imagesByProduct images = images.foldl
    (fun d im =>
      match im.supplier_aid with
      | some t => if t ≠ "" then dictAppend t im d else d
      | none => d) [] from rfl]
  rw [imagesByProduct_foldl_get images [] s hs]
  simp [dictGet]

theorem imagesByProduct_foldl_empty_key (images : List ImageRow)
    (d : List (String × List ImageRow)) :
    dictGet "" (images.foldl
      (fun d im =>
        match im.supplier_aid with
        | some t => if t ≠ "" then dictAppend t im d else d
        | none => d) d) = dictGet "" d := by
  induction images generalizing d with
  | nil => rfl
  | cons im rest ih =>
      simp only [List.foldl_cons]
      cases ha : im.supplier_aid with
      | none => exact ih d
      | some t =>
          by_cases ht : t = ""
          · simp only [ha, ne_eq, ht, not_true_eq_false, if_false, ite_false]
            exact ih d
          · simp only [ha, ne_eq, ht, not_false_eq_true, if_true, ite_true]
            rw [ih (dictAppend t im d), dictGet_dictAppend_ne ht]

theorem imagesByProduct_get_empty (images : List ImageRow) :
    dictGet "" (imagesByProduct images) = none := by
  rw [show imagesByProduct images = images.foldl
    (fun d im =>
      match im.supplier_aid with
      | some t => if t ≠ "" then dictAppend t im d else d
      | none => d) [] from rfl]
  rw [imagesByProduct_foldl_empty_key images []]
  rfl

theorem warrantiesByGroup_foldl_get (ws : List WarrantyRow)
    (d : List (Int × List WarrantyRow)) (g : Int) :
    dictGet g (ws.foldl
      (fun d w =>
        match w.garantiegruppe with
        | some gr => dictAppend gr w d
        | none => d) d) =
    (match dictGet g d with
     | some l => some (l ++ ws.filter (fun w => w.garantiegruppe = some g))
     | none =>
        if ws.filter (fun w => w.garantiegruppe = some g) = [] then none
        else some (ws.filter (fun w => w.garantiegruppe = some g))) := by
  induction ws generalizing d with
  | nil => cases h : dictGet g d <;> simp [h]
  | cons w rest ih =>
      simp only [List.foldl_cons]
      cases ha : w.garantiegruppe with
      | none =>
          rw [ih d]
          simp only [List.filter_cons, decide_eq_true_eq]
          cases h : dictGet g d <;> simp [h, ha]
      | some gr =>
          by_cases hg : gr = g
          · subst hg
            simp only [ha]
            rw [ih (dictAppend gr w d), dictGet_dictAppend_self]
            simp only [List.filter_cons, decide_eq_true_eq]
            cases h : dictGet gr d with
            | none => simp [h, ha]
            | some l => simp [h, ha]
          · simp only [ha]
            rw [ih (dictAppend gr w d), dictGet_dictAppend_ne hg]
            simp only [List.filter_cons, decide_eq_true_eq]
            cases h : dictGet g d <;> simp [h, ha, hg]

theorem warrantiesByGroup_get (ws : List WarrantyRow) (g : Int) :
    dictGet g (warrantiesByGroup ws) =
    (if ws.filter (fun w => w.garantiegruppe = some g) = [] then none
     else some (ws.filter (fun w => w.garantiegruppe = some g))) := by
  rw [show warrantiesByGroup ws = ws.foldl
    (fun d w =>
      match w.garantiegruppe with
      | some gr => dictAppend gr w d
      | none => d) [] from rfl]
  rw [warrantiesByGroup_foldl_get ws [] g]
  simp [dictGet]

/-- Images the Record Merger associates with a product key: the image rows
whose supplier_aid equals the truthy product id, primary-sorted (stable). -/
def relImages (pid : Option String) (images : List ImageRow) : List ImageRow :=
  match pid with
  | some s =>
      if s = "" then []
      else sortPrimaryFirst (images.filter (fun im => im.supplier_aid = some s))
  | none => []

/-- Warranty options of a product's non-NULL warranty group. -/
def relWarranties (grp : Option Int) (warranties : List WarrantyRow) : List WarrantyRow :=
  match grp with
  | some gr => warranties.filter (fun w => w.garantiegruppe = some gr)
  | none => []

/-- Characterization of merge_data as a per-product flatMap (shared). -/
theorem merge_data_eq_flatMap (products : List ProductRow) (images : List ImageRow)
    (warranties : List WarrantyRow) :
    merge_data products images warranties = products.flatMap (fun p =>
      (relImages p.productId images).map (fun im => ⟨p, some im, none⟩) ++
      (relWarranties p.garantiegruppe warranties).map (fun w => ⟨p, none, some w⟩) ++
      (if relImages p.productId images = [] ∧ relWarranties p.garantiegruppe warranties = []
       then [⟨p, none, none⟩] else [])) := by
  simp only [merge_data]
  congr 1
  funext p
  have himgs : (match p.productId with
      | some s => dictGet s ((imagesByProduct images).map (fun kv => (kv.1, sortPrimaryFirst kv.2)))
      | none => none) =
      (if relImages p.productId images = [] then none
       else some (relImages p.productId images)) := by
    cases hpid : p.productId with
    | none => simp [relImages]
    | some s =>
        show dictGet s ((imagesByProduct images).map (fun kv => (kv.1, sortPrimaryFirst kv.2))) =
          (if relImages (some s) images = [] then none else some (relImages (some s) images))
        rw [dictGet_map_value]
        by_cases hse : s = ""
        · subst hse
          rw [imagesByProduct_get_empty images]
          simp [relImages]
        · rw [imagesByProduct_get images s hse]
          by_cases hf : images.filter (fun im => im.supplier_aid = some s) = []
          · simp [relImages, hse, hf, sortPrimaryFirst_eq_nil_iff]
          · simp only [relImages, hse, hf, ite_false, if_false, Option.map_some]
            rw [if_neg]
            · simp
            · rw [sortPrimaryFirst_eq_nil_iff]
              exact hf
  have hwops : (match p.garantiegruppe with
      | some g => dictGet g (warrantiesByGroup warranties)
      | none => none) =
      (if relWarranties p.garantiegruppe warranties = [] then none
       else some (relWarranties p.garantiegruppe warranties)) := by
    cases hg : p.garantiegruppe with
    | none => simp [relWarranties]
    | some gr =>
        show dictGet gr (warrantiesByGroup warranties) =
          (if relWarranties (some gr) warranties = [] then none
           else some (relWarranties (some gr) warranties))
        rw [warrantiesByGroup_get warranties gr]
        simp [relWarranties]
  rw [himgs, hwops]
  by_cases hri : relImages p.productId images = []
  · by_cases hrw : relWarranties p.garantiegruppe warranties = []
    · simp [hri, hrw]
    · have hgne : p.garantiegruppe ≠ none := by
        intro hg
        exact hrw (by simp [relWarranties, hg])
      simp [hri, hrw, hgne]
  · by_cases hrw : relWarranties p.garantiegruppe warranties = []
    · simp [hri, hrw]
    · simp [hri, hrw]

/-- Claim C4: For every input of product, image and warranty rows, the Record
Merger outputs per product one joined row per associated image plus one
joined row per warranty option in the product's warranty group, and exactly
one bare row when the product has neither; no input makes it fail. -/
theorem merge_data_rows_per_join (products : List ProductRow) (images : List ImageRow)
    (warranties : List WarrantyRow) :
    merge_data products images warranties = products.flatMap (fun p =>
      (relImages p.productId images).map (fun im => ⟨p, some im, none⟩) ++
      (relWarranties p.garantiegruppe warranties).map (fun w => ⟨p, none, some w⟩) ++
      (if relImages p.productId images = [] ∧ relWarranties p.garantiegruppe warranties = []
       then [⟨p, none, none⟩] else [])) :=
  merge_data_eq_flatMap products images warranties

/-! ## C2 : warranty-group variant expansion -/

theorem warrantyVariantsLoop_eq_map (pid : Option String) (base wt : ℚ)
    (l : List WarrantyRow) (hpz : ∀ w ∈ l, w.prozentsatz.isSome) :
    warrantyVariantsLoop pid base wt l =
      (l.map (fun w => pyStr w.name),
       l.map (fun w => warrantyVariant pid base wt w (w.prozentsatz.getD 0))) := by
  induction l with
  | nil => rfl
  | cons w ws ih =>
      have hw := hpz w (List.mem_cons_self _ _)
      obtain ⟨pz, hpzw⟩ := Option.isSome_iff_exists.mp hw
      have hrest := ih (fun x hx => hpz x (List.mem_cons_of_mem _ hx))
      simp [warrantyVariantsLoop, hrest, hpzw]

theorem filterWarranties_id_nodup (grpS : String) (seen : List (Option Int))
    (l : List WarrantyRow) :
    ((filterWarranties grpS seen l).map (fun w => w.id)).Nodup ∧
    ∀ w ∈ filterWarranties grpS seen l, w.id ∉ seen := by
  induction l generalizing seen with
  | nil => simp [filterWarranties]
  | cons w ws ih =>
      by_cases hc : pyStrI w.garantiegruppe = grpS ∧ w.id ∉ seen
      · have h₂ := ih (w.id :: seen)
        refine ⟨?_, ?_⟩
        · simp only [filterWarranties, if_pos hc, List.map_cons, List.nodup_cons]
          constructor
          · intro hmem
            obtain ⟨x, hx, hxid⟩ := List.mem_map.mp hmem
            exact (h₂.2 x hx) (by simp [hxid])
          · exact h₂.1
        · intro x hx
          simp only [filterWarranties, if_pos hc, List.mem_cons] at hx
          rcases hx with h | h
          · exact h ▸ hc.2
          · intro hseen
            exact (h₂.2 x h) (List.mem_cons_of_mem _ hseen)
      · simpa [filterWarranties, if_neg hc] using ih seen


theorem filterWarranties_sublist (grpS : String) (seen : List (Option Int))
    (l : List WarrantyRow) : (filterWarranties grpS seen l).Sublist l := by
  induction l generalizing seen with
  | nil => simp [filterWarranties]
  | cons w ws ih =>
      by_cases hc : pyStrI w.garantiegruppe = grpS ∧ w.id ∉ seen
      · simpa [filterWarranties, if_pos hc] using (ih (w.id :: seen)).cons₂ w
      · simpa [filterWarranties, if_neg hc] using (ih seen).cons w

/-- Claim C2: For a product whose warranty-group integer is non-zero, with the
N distinct resolved options (group-matched, de-duplicated by option id with
the first occurrence kept, each carrying a percentage), the Variant Expander
emits exactly the N corresponding variants — each priced at base plus base
times percentage over one hundred rendered to two decimals, with SKU
productId-G-optionId and label name-months-Monate — and falls back to the
single-variant case when N is zero instead of erroring. -/
theorem variant_expansion_per_distinct_option (g : GroupedProduct)
    (hgrp : pyIntOr g.row.garantiegruppe 0 ≠ 0)
    (hpz : ∀ w ∈ filterWarranties (pyStrI g.row.garantiegruppe) [] g.warranties,
      w.prozentsatz.isSome) :
    ((filterWarranties (pyStrI g.row.garantiegruppe) [] g.warranties).map
      (fun w => w.id)).Nodup ∧
    (filterWarranties (pyStrI g.row.garantiegruppe) [] g.warranties).Sublist g.warranties ∧
    (filterWarranties (pyStrI g.row.garantiegruppe) [] g.warranties ≠ [] →
      (_create_shopify_product g).product.variants =
        (filterWarranties (pyStrI g.row.garantiegruppe) [] g.warranties).map (fun w =>
          { price := fmt2 (pyNumOr g.row.price_B2C_inclVAT (pyNumOr g.row.price_B2B_Regular 0) +
              pyNumOr g.row.price_B2C_inclVAT (pyNumOr g.row.price_B2B_Regular 0) *
                (w.prozentsatz.getD 0) / 100)
            sku := pyStr g.row.productId ++ "-" ++ ("G" ++ pyStrI w.id)
            inventory_quantity := 0
            inventory_management := none
            inventory_policy := some "deny"
            weight := pyNumOr g.row.grossWeight (pyNumOr g.row.netWeight 0)
            weight_unit := "kg"
            option1 := pyStr w.name ++ " " ++ pyStrI w.monate ++ " Monate" })) ∧
    (filterWarranties (pyStrI g.row.garantiegruppe) [] g.warranties = [] →
      (_create_shopify_product g).product.variants =
        [singleVariant g.row.productId
          (pyNumOr g.row.price_B2C_inclVAT (pyNumOr g.row.price_B2B_Regular 0))
          (pyIntOr g.row.stock 0)
          (pyNumOr g.row.grossWeight (pyNumOr g.row.netWeight 0))
          (pyStrOr g.row.warranty "Standard")]) := by
  refine ⟨(filterWarranties_id_nodup _ [] _).1, filterWarranties_sublist _ [] _, ?_, ?_⟩
  · intro hne
    have hloop := warrantyVariantsLoop_eq_map g.row.productId
      (pyNumOr g.row.price_B2C_inclVAT (pyNumOr g.row.price_B2B_Regular 0))
      (pyNumOr g.row.grossWeight (pyNumOr g.row.netWeight 0))
      (filterWarranties (pyStrI g.row.garantiegruppe) [] g.warranties) hpz
    have hmapne : ¬ (List.map (fun w => warrantyVariant g.row.productId
        (pyNumOr g.row.price_B2C_inclVAT (pyNumOr g.row.price_B2B_Regular 0))
        (pyNumOr g.row.grossWeight (pyNumOr g.row.netWeight 0)) w (w.prozentsatz.getD 0))
        (filterWarranties (pyStrI g.row.garantiegruppe) [] g.warranties) = []) := by
      simpa using hne
    simp [_create_shopify_product, hloop, hgrp, hne, hmapne, warrantyVariant]
  · intro hnil
    have hloop := warrantyVariantsLoop_eq_map g.row.productId
      (pyNumOr g.row.price_B2C_inclVAT (pyNumOr g.row.price_B2B_Regular 0))
      (pyNumOr g.row.grossWeight (pyNumOr g.row.netWeight 0))
      (filterWarranties (pyStrI g.row.garantiegruppe) [] g.warranties) hpz
    simp [_create_shopify_product, hnil, hgrp, warrantyVariantsLoop]

/-- Concrete grouped product used by the C2 witness: group 5 with two
distinct resolved options. -/
def sampleWarrantyProduct : GroupedProduct :=
  { row :=
      { productId := some "p9", title := some "T", descriptionShort := none,
        longDescription := none, manufacturer := none, category := none,
        categoryPath := none, warranty := none, price_B2B_Regular := none,
        price_B2B_Discounted := none, price_B2C_inclVAT := some 100,
        stock := some 3, stockNextDelivery := none, grossWeight := some 1,
        netWeight := none, garantiegruppe := some 5, accessoryProducts := none }
    images := []
    warranties :=
      [{ id := some 1, name := some "Bronze", monate := some 12, prozentsatz := some 10,
         minimum := some 0, garantiegruppe := some 5 },
       { id := some 2, name := some "Silber", monate := some 24, prozentsatz := some 5,
         minimum := some 0, garantiegruppe := some 5 }] }

/-- Witness for C2: the two distinct ids of the concrete product stay
duplicate-free through the filter. -/
theorem variant_expansion_per_distinct_option_witness :
    ((filterWarranties (pyStrI sampleWarrantyProduct.row.garantiegruppe) []
      sampleWarrantyProduct.warranties).map (fun w => w.id)).Nodup :=
  (variant_expansion_per_distinct_option sampleWarrantyProduct (by decide) (by decide)).1


/-! ## C3 : the legacy warranty metafield -/

/-- Concrete grouped product for the C3 counterexample: warranty group 5 is
set but no options resolve, so expansion falls back to a single variant. -/
def fallbackSampleProduct : GroupedProduct :=
  { row :=
      { productId := some "p1", title := none, descriptionShort := none,
        longDescription := none, manufacturer := none, category := none,
        categoryPath := none, warranty := none, price_B2B_Regular := none,
        price_B2B_Discounted := none, price_B2C_inclVAT := none, stock := none,
        stockNextDelivery := none, grossWeight := none, netWeight := none,
        garantiegruppe := some 5, accessoryProducts := none }
    images := []
    warranties := [] }

/-- Counterexample to C3 as stated: a product with warranty group 5 and zero
resolved options expands to a single variant through the defined fallback,
yet its metafields carry no warranty key — the legacy metafield is keyed to
the no-group mode, not to single-variant mode. -/
theorem warranty_metafield_fallback_counterexample :
    (_create_shopify_product fallbackSampleProduct).product.variants.length = 1 ∧
    pyIntOr fallbackSampleProduct.row.garantiegruppe 0 ≠ 0 ∧
    ∀ m ∈ (_create_shopify_product fallbackSampleProduct).product.metafields,
      m.key ≠ "warranty" := by
  decide

/-- Claim C3 amended: The legacy warranty metafield is included exactly when the
warranty-group integer is zero or unset (the no-group mode): it is then
present with the product's warranty text or empty, and the single variant's
option label is the warranty text or Standard; with a group set it is absent
even in the zero-option single-variant fallback, and in particular every
multi-variant product lacks it. -/
theorem warranty_metafield_no_group_mode (g : GroupedProduct) :
    ((∃ m ∈ (_create_shopify_product g).product.metafields, m.key = "warranty") ↔
      pyIntOr g.row.garantiegruppe 0 = 0) ∧
    (pyIntOr g.row.garantiegruppe 0 = 0 →
      (_create_shopify_product g).product.variants =
        [singleVariant g.row.productId
          (pyNumOr g.row.price_B2C_inclVAT (pyNumOr g.row.price_B2B_Regular 0))
          (pyIntOr g.row.stock 0)
          (pyNumOr g.row.grossWeight (pyNumOr g.row.netWeight 0))
          (pyStrOr g.row.warranty "Standard")] ∧
      ∃ m ∈ (_create_shopify_product g).product.metafields,
        m.ns = "custom" ∧ m.key = "warranty" ∧ m.value = pyStrOr g.row.warranty "") ∧
    (1 < (_create_shopify_product g).product.variants.length →
      ∀ m ∈ (_create_shopify_product g).product.metafields, m.key ≠ "warranty") := by
  by_cases hg : pyIntOr g.row.garantiegruppe 0 = 0
  · refine ⟨?_, ?_, ?_⟩
    · simp [_create_shopify_product, hg]
    · intro _
      constructor
      · simp [_create_shopify_product, hg]
      · refine ⟨⟨"custom", "warranty", pyStrOr g.row.warranty "", "single_line_text_field"⟩,
          ?_, rfl, rfl, rfl⟩
        simp [_create_shopify_product, hg]
    · intro hlen
      have : (_create_shopify_product g).product.variants =
          [singleVariant g.row.productId
            (pyNumOr g.row.price_B2C_inclVAT (pyNumOr g.row.price_B2B_Regular 0))
            (pyIntOr g.row.stock 0)
            (pyNumOr g.row.grossWeight (pyNumOr g.row.netWeight 0))
            (pyStrOr g.row.warranty "Standard")] := by
        simp [_create_shopify_product, hg]
      rw [this] at hlen
      simp at hlen
  · refine ⟨?_, fun h => absurd h hg, ?_⟩
    · constructor
      · rintro ⟨m, hm, hkey⟩
        by_cases hacc : truthyS g.row.accessoryProducts = true <;>
          simp [_create_shopify_product, hg, hacc] at hm <;>
          rcases hm with h | h | h | h | h <;> simp [h] at hkey ⊢
      · intro h
        exact absurd h hg
    · intro _ m hm hkey
      by_cases hacc : truthyS g.row.accessoryProducts = true <;>
        simp [_create_shopify_product, hg, hacc] at hm <;>
        rcases hm with h | h | h | h | h <;> simp [h] at hkey ⊢

/-- Witness for C3 amended: on a concrete no-group product, the warranty
metafield is present. -/
theorem warranty_metafield_no_group_mode_witness :
    ∃ m ∈ (_create_shopify_product
      { row :=
          { productId := some "p2", title := none, descriptionShort := none,
            longDescription := none, manufacturer := none, category := none,
            categoryPath := none, warranty := some "24 Monate",
            price_B2B_Regular := none, price_B2B_Discounted := none,
            price_B2C_inclVAT := none, stock := none, stockNextDelivery := none,
            grossWeight := none, netWeight := none, garantiegruppe := some 0,
            accessoryProducts := none }
        images := []
        warranties := [] }).product.metafields,
      m.ns = "custom" ∧ m.key = "warranty" ∧
        m.value = pyStrOr (some "24 Monate") "" :=
  ((warranty_metafield_no_group_mode _).2.1 (by decide)).2


/-! ## C5 : bulk reassembly -/

/-- BulkLine with every field absent, base for concrete lines. -/
def emptyBulkLine : BulkLine :=
  { typename := none, id := none, parentId := none, handle := none, title := none,
    bodyHtml := none, vendor := none, productType := none, tags := [], options := [],
    price := none, sku := none, inventoryQuantity := none, selectedOptions := [],
    url := none, key := none, value := none, verwandte_produkte := none,
    inventarbestand := none, stock_next_delivery := none, warranty_group := none,
    price_b2b_regular := none, price_b2b_discounted := none, ram := none,
    prozessor := none, prozessorfamilie := none, gpu := none, speicher := none,
    bildschirmdiagonale := none, metafieldEdges := [] }

/-- Concrete root product line. -/
def bulkP : BulkLine :=
  { emptyBulkLine with
    typename := some "Product"
    id := some "gid://shopify/Product/1"
    handle := some "prod-1"
    title := some "T" }

/-- Concrete variant line parented to bulkP. -/
def bulkV1 : BulkLine :=
  { emptyBulkLine with
    typename := some "ProductVariant"
    id := some "gid://shopify/ProductVariant/11"
    parentId := some "gid://shopify/Product/1"
    sku := some "1" }

/-- Second concrete variant line parented to bulkP. -/
def bulkV2 : BulkLine :=
  { emptyBulkLine with
    typename := some "ProductVariant"
    id := some "gid://shopify/ProductVariant/12"
    parentId := some "gid://shopify/Product/1"
    sku := some "1-G1" }

/-- Concrete image line parented to bulkP. -/
def bulkI : BulkLine :=
  { emptyBulkLine with
    typename := some "ProductImage"
    id := some "gid://shopify/ProductImage/21"
    parentId := some "gid://shopify/Product/1"
    url := some "https-img" }

/-- Concrete parent-linked metafield line parented to bulkP. -/
def bulkMf : BulkLine :=
  { emptyBulkLine with
    typename := some "Metafield"
    parentId := some "gid://shopify/Product/1"
    key := some "foo"
    value := some "bar" }

/-- Counterexample to C5 as stated: a parent-linked metafield record naming
the root is bucketed but never attached — the reconstructed item carries no
metafield at all, so root items do not carry exactly the metafield records
whose parent reference names them. -/
theorem bulk_metafield_not_attached_counterexample :
    bulkMf.typename = some "Metafield" ∧ bulkMf.parentId = bulkP.id ∧
    bulkMf.key = some "foo" ∧
    (process_bulk_results [bulkP, bulkMf]).length = 1 ∧
    ∀ mp ∈ process_bulk_results [bulkP, bulkMf], mp.metafields.isEmpty := by
  decide

theorem bucketLine_variantsByParent (b : BulkBuckets) (node : BulkLine) :
    (bucketLine b node).variantsByParent =
      (if node.typename = some "ProductVariant" then
        match node.parentId with
        | some pa => if pa ≠ "" then dictAppend pa node b.variantsByParent
                     else b.variantsByParent
        | none => b.variantsByParent
      else b.variantsByParent) := by
  by_cases h1 : node.typename = some "Product"
  · have h2 : ¬ node.typename = some "ProductVariant" := by simp [h1]
    simp only [bucketLine, h1, if_true, if_neg h2, ite_true]
    cases node.id with
    | none => rfl
    | some pid => by_cases hp : pid = "" <;> simp [hp]
  · by_cases h2 : node.typename = some "ProductVariant"
    · simp only [bucketLine, h1, ite_false, h2, ite_true, if_true, if_neg h1]
      cases node.parentId with
      | none => rfl
      | some pa => by_cases hp : pa = "" <;> simp [hp]
    · simp only [bucketLine, h1, h2, ite_false, if_neg h1, if_neg h2]
      by_cases h3 : node.typename = some "ProductImage"
      · simp only [h3, ite_true]
        cases node.parentId with
        | none => rfl
        | some pa => by_cases hp : pa = "" <;> simp [hp]
      · simp only [h3, ite_false]
        by_cases h4 : node.typename = some "Metafield"
        · simp only [h4, ite_true]
          cases node.parentId with
          | none => rfl
          | some pa =>
              by_cases hp : pa = ""
              · simp [hp]
              · simp only [hp]
                cases node.key with
                | none => simp
                | some k => by_cases hk : k = "" <;> simp [hp, hk]
        · simp [h4]

theorem bucketLine_imagesByParent (b : BulkBuckets) (node : BulkLine) :
    (bucketLine b node).imagesByParent =
      (if node.typename = some "ProductImage" then
        match node.parentId with
        | some pa => if pa ≠ "" then dictAppend pa node b.imagesByParent
                     else b.imagesByParent
        | none => b.imagesByParent
      else b.imagesByParent) := by
  by_cases h1 : node.typename = some "Product"
  · have h3 : ¬ node.typename = some "ProductImage" := by simp [h1]
    simp only [bucketLine, h1, if_true, if_neg h3, ite_true]
    cases node.id with
    | none => rfl
    | some pid => by_cases hp : pid = "" <;> simp [hp]
  · by_cases h2 : node.typename = some "ProductVariant"
    · have h3 : ¬ node.typename = some "ProductImage" := by simp [h2]
      simp only [bucketLine, h1, ite_false, h2, ite_true, if_neg h3]
      cases node.parentId with
      | none => rfl
      | some pa => by_cases hp : pa = "" <;> simp [hp]
    · by_cases h3 : node.typename = some "ProductImage"
      · simp only [bucketLine, h1, h2, h3, ite_false, ite_true, if_pos h3]
        cases node.parentId with
        | none => rfl
        | some pa => by_cases hp : pa = "" <;> simp [hp]
      · simp only [bucketLine, h1, h2, h3, ite_false, if_neg h3]
        by_cases h4 : node.typename = some "Metafield"
        · simp only [h4, ite_true]
          cases node.parentId with
          | none => rfl
          | some pa =>
              by_cases hp : pa = ""
              · simp [hp]
              · simp only [hp]
                cases node.key with
                | none => simp
                | some k => by_cases hk : k = "" <;> simp [hp, hk]
        · simp [h4]

theorem bucketFold_variants_get (stream : List BulkLine) (b₀ : BulkBuckets)
    (pid : String) (hpid : pid ≠ "") :
    dictGet pid (stream.foldl bucketLine b₀).variantsByParent =
      (match dictGet pid b₀.variantsByParent with
       | some l => some (l ++ stream.filter
          (fun n => n.typename = some "ProductVariant" ∧ n.parentId = some pid))
       | none =>
          if stream.filter
              (fun n => n.typename = some "ProductVariant" ∧ n.parentId = some pid) = []
          then none
          else some (stream.filter
            (fun n => n.typename = some "ProductVariant" ∧ n.parentId = some pid))) := by
  induction stream generalizing b₀ with
  | nil => cases h : dictGet pid b₀.variantsByParent <;> simp [h]
  | cons node rest ih =>
      simp only [List.foldl_cons]
      rw [ih (bucketLine b₀ node)]
      by_cases hmatch : node.typename = some "ProductVariant" ∧ node.parentId = some pid
      · have hstep : (node :: rest).filter
            (fun n => n.typename = some "ProductVariant" ∧ n.parentId = some pid) =
            node :: rest.filter
              (fun n => n.typename = some "ProductVariant" ∧ n.parentId = some pid) := by
          rw [List.filter_cons]
          simp [hmatch.1, hmatch.2]
        have hvb : (bucketLine b₀ node).variantsByParent =
            dictAppend pid node b₀.variantsByParent := by
          rw [bucketLine_variantsByParent, if_pos hmatch.1, hmatch.2]
          simp [hpid]
        rw [hvb, dictGet_dictAppend_self, hstep]
        cases h : dictGet pid b₀.variantsByParent with
        | none => simp [h]
        | some l => simp [h]
      · have hstep : (node :: rest).filter
            (fun n => n.typename = some "ProductVariant" ∧ n.parentId = some pid) =
            rest.filter
              (fun n => n.typename = some "ProductVariant" ∧ n.parentId = some pid) := by
          rw [List.filter_cons]
          simp [hmatch]
        have hvb : dictGet pid (bucketLine b₀ node).variantsByParent =
            dictGet pid b₀.variantsByParent := by
          rw [bucketLine_variantsByParent]
          by_cases h2 : node.typename = some "ProductVariant"
          · cases hpa : node.parentId with
            | none => simp [h2]
            | some pa =>
                have hps : pa ≠ pid := by
                  intro he
                  exact hmatch ⟨h2, he ▸ hpa⟩
                by_cases hpe : pa = ""
                · simp [h2, hpe]
                · simp only [h2, ite_true, hpe, ne_eq, not_false_eq_true, if_true]
                  exact dictGet_dictAppend_ne hps node b₀.variantsByParent
          · simp [h2]
        rw [hvb, hstep]
  
theorem bucketFold_images_get (stream : List BulkLine) (b₀ : BulkBuckets)
    (pid : String) (hpid : pid ≠ "") :
    dictGet pid (stream.foldl bucketLine b₀).imagesByParent =
      (match dictGet pid b₀.imagesByParent with
       | some l => some (l ++ stream.filter
          (fun n => n.typename = some "ProductImage" ∧ n.parentId = some pid))
       | none =>
          if stream.filter
              (fun n => n.typename = some "ProductImage" ∧ n.parentId = some pid) = []
          then none
          else some (stream.filter
            (fun n => n.typename = some "ProductImage" ∧ n.parentId = some pid))) := by
  induction stream generalizing b₀ with
  | nil => cases h : dictGet pid b₀.imagesByParent <;> simp [h]
  | cons node rest ih =>
      simp only [List.foldl_cons]
      rw [ih (bucketLine b₀ node)]
      by_cases hmatch : node.typename = some "ProductImage" ∧ node.parentId = some pid
      · have hstep : (node :: rest).filter
            (fun n => n.typename = some "ProductImage" ∧ n.parentId = some pid) =
            node :: rest.filter
              (fun n => n.typename = some "ProductImage" ∧ n.parentId = some pid) := by
          rw [List.filter_cons]
          simp [hmatch.1, hmatch.2]
        have hvb : (bucketLine b₀ node).imagesByParent =
            dictAppend pid node b₀.imagesByParent := by
          rw [bucketLine_imagesByParent, if_pos hmatch.1, hmatch.2]
          simp [hpid]
        rw [hvb, dictGet_dictAppend_self, hstep]
        cases h : dictGet pid b₀.imagesByParent with
        | none => simp [h]
        | some l => simp [h]
      · have hstep : (node :: rest).filter
            (fun n => n.typename = some "ProductImage" ∧ n.parentId = some pid) =
            rest.filter
              (fun n => n.typename = some "ProductImage" ∧ n.parentId = some pid) := by
          rw [List.filter_cons]
          simp [hmatch]
        have hvb : dictGet pid (bucketLine b₀ node).imagesByParent =
            dictGet pid b₀.imagesByParent := by
          rw [bucketLine_imagesByParent]
          by_cases h2 : node.typename = some "ProductImage"
          · cases hpa : node.parentId with
            | none => simp [h2]
            | some pa =>
                have hps : pa ≠ pid := by
                  intro he
                  exact hmatch ⟨h2, he ▸ hpa⟩
                by_cases hpe : pa = ""
                · simp [h2, hpe]
                · simp only [h2, ite_true, hpe, ne_eq, not_false_eq_true, if_true]
                  exact dictGet_dictAppend_ne hps node b₀.imagesByParent
          · simp [h2]
        rw [hvb, hstep]

/-- Companion to the second-pass loop: the root lines it keeps — a root
whose truthy handle was already seen is dropped, so the first root line per
handle wins. -/
def dedupByHandleFirst (seen : List String) : List (String × BulkLine) → List (String × BulkLine)
  | [] => []
  | (pid, node) :: rest =>
      match node.handle with
      | some h =>
          if h ≠ "" ∧ h ∈ seen then dedupByHandleFirst seen rest
          else (pid, node) :: dedupByHandleFirst (if h ≠ "" then h :: seen else seen) rest
      | none => (pid, node) :: dedupByHandleFirst seen rest

theorem mapLoop_eq_dedup_map (b : BulkBuckets) (ps : List (String × BulkLine))
    (seen : List String) :
    mapLoop b seen ps = (dedupByHandleFirst seen ps).map
      (fun kv => mapProductNode b kv.1 kv.2) := by
  induction ps generalizing seen with
  | nil => rfl
  | cons kv rest ih =>
      obtain ⟨pid, node⟩ := kv
      cases hh : node.handle with
      | none => simp [mapLoop, dedupByHandleFirst, hh, ih]
      | some h =>
          by_cases hc : h ≠ "" ∧ h ∈ seen
          · simp [mapLoop, dedupByHandleFirst, hh, hc, ih]
          · simp [mapLoop, dedupByHandleFirst, hh, hc, ih]

theorem dedupByHandleFirst_none_after_seen (ps : List (String × BulkLine))
    (seen : List String) (h : String) (hne : h ≠ "") (hseen : h ∈ seen) :
    (dedupByHandleFirst seen ps).filter (fun kv => kv.2.handle = some h) = [] := by
  induction ps generalizing seen with
  | nil => rfl
  | cons kv rest ih =>
      obtain ⟨pid, node⟩ := kv
      cases hhh : node.handle with
      | none =>
          simp only [dedupByHandleFirst, hhh]
          rw [List.filter_cons]
          simp [hhh, ih seen hseen]
      | some h₀ =>
          by_cases hc : h₀ ≠ "" ∧ h₀ ∈ seen
          · simp only [dedupByHandleFirst, hhh, if_pos hc]
            exact ih seen hseen
          · have hne₀ : ¬ (node.handle = some h) := by
              rw [hhh]
              intro he
              have heq : h₀ = h := by simpa using he
              subst heq
              exact hc ⟨hne, hseen⟩
            simp only [dedupByHandleFirst, hhh, if_neg hc]
            rw [List.filter_cons]
            by_cases hz : h₀ ≠ ""
            · simp [hne₀, hz, ih (h₀ :: seen) (List.mem_cons_of_mem _ hseen)]
            · simp [hne₀, hz, ih seen hseen]

theorem dedupByHandleFirst_at_most_one (ps : List (String × BulkLine))
    (seen : List String) (h : String) (hne : h ≠ "") :
    ((dedupByHandleFirst seen ps).filter (fun kv => kv.2.handle = some h)).length ≤ 1 := by
  induction ps generalizing seen with
  | nil => simp [dedupByHandleFirst]
  | cons kv rest ih =>
      obtain ⟨pid, node⟩ := kv
      cases hhh : node.handle with
      | none =>
          simp only [dedupByHandleFirst, hhh]
          rw [List.filter_cons]
          simpa [hhh] using ih seen
      | some h₀ =>
          by_cases hc : h₀ ≠ "" ∧ h₀ ∈ seen
          · simp only [dedupByHandleFirst, hhh, if_pos hc]
            exact ih seen
          · simp only [dedupByHandleFirst, hhh, if_neg hc]
            rw [List.filter_cons]
            by_cases hh₀ : h₀ = h
            · subst hh₀
              have hrest := dedupByHandleFirst_none_after_seen rest (h₀ :: seen) h₀ hne
                (List.mem_cons_self _ _)
              simp [hhh, hne, hrest]
            · have hne₀ : ¬ (node.handle = some h) := by
                rw [hhh]
                simpa using hh₀
              by_cases hz : h₀ ≠ ""
              · simpa [hne₀, hhh, hz, hh₀] using ih (h₀ :: seen)
              · simpa [hne₀, hhh, hz, hh₀] using ih seen

theorem dedupByHandleFirst_keeps_first (ps : List (String × BulkLine))
    (seen : List String) (h : String) (hne : h ≠ "") (hnotseen : h ∉ seen) :
    ∀ kv rest₁, ps.filter (fun kv => kv.2.handle = some h) = kv :: rest₁ →
      kv ∈ dedupByHandleFirst seen ps := by
  induction ps generalizing seen with
  | nil =>
      intro kv rest₁ habs
      simp at habs
  | cons p rest ih =>
      intro kv rest₁ hfilter
      obtain ⟨pid, node⟩ := p
      by_cases hph : node.handle = some h
      · have hkv : kv = (pid, node) := by
          rw [List.filter_cons] at hfilter
          simp only [hph, decide_eq_true_eq, if_pos] at hfilter
          have := (List.cons_eq_cons.mp (by simpa using hfilter)).1
          exact this.symm
        subst hkv
        cases hhh : node.handle with
        | none => simp [hhh] at hph
        | some h₀ =>
            have hh₀ : h₀ = h := by rw [hhh] at hph; simpa using hph
            subst hh₀
            have hc : ¬(h₀ ≠ "" ∧ h₀ ∈ seen) := fun hx => hnotseen hx.2
            simp [dedupByHandleFirst, hhh, hc]
      · have hfilter₂ : rest.filter (fun kv => kv.2.handle = some h) = kv :: rest₁ := by
          rw [List.filter_cons] at hfilter
          simpa [hph] using hfilter
        cases hhh : node.handle with
        | none =>
            simp only [dedupByHandleFirst, hhh]
            exact List.mem_cons_of_mem _ (ih seen hnotseen kv rest₁ hfilter₂)
        | some h₀ =>
            by_cases hc : h₀ ≠ "" ∧ h₀ ∈ seen
            · simp only [dedupByHandleFirst, hhh, if_pos hc]
              exact ih seen hnotseen kv rest₁ hfilter₂
            · simp only [dedupByHandleFirst, hhh, if_neg hc]
              refine List.mem_cons_of_mem _ ?_
              by_cases hz : h₀ ≠ ""
              · have hh₀ : h₀ ≠ h := by
                  intro he
                  subst he
                  exact hph hhh
                have hns : h ∉ h₀ :: seen := by
                  intro hin
                  rcases List.mem_cons.mp hin with he | he
                  · exact hh₀ he.symm
                  · exact hnotseen he
                simpa [hz] using ih (h₀ :: seen) hns kv rest₁ hfilter₂
              · simpa [hz] using ih seen hnotseen kv rest₁ hfilter₂

/-- Claim C5 amended: Bulk reassembly over any flat line stream: each mapped root
item carries exactly the mapped variant records whose parent reference names
its id and the truthy-url image records whose parent reference names it
(parent-linked metafield records are bucketed but never attached, see the
counterexample); the concrete one-product, two-variant, one-image stream
reconstructs to exactly 2 variants and 1 image under every permutation of
the lines; and the second pass equals first-wins de-duplication of roots by
truthy handle followed by mapping — with at most one kept root per handle
and the first occurrence kept. -/
theorem bulk_reassembly_children_and_dedup :
    (∀ (stream : List BulkLine) (pid : String) (node : BulkLine), pid ≠ "" →
      ((mapProductNode (stream.foldl bucketLine ⟨[], [], [], []⟩) pid node).variants =
        (stream.filter
          (fun n => n.typename = some "ProductVariant" ∧ n.parentId = some pid)).map
            mapVariantNode ∧
       (mapProductNode (stream.foldl bucketLine ⟨[], [], [], []⟩) pid node).images =
        (stream.filter
          (fun n => n.typename = some "ProductImage" ∧ n.parentId = some pid)).filterMap
            (fun im =>
              match im.url with
              | some src => if src ≠ "" then some src else none
              | none => none))) ∧
    (∀ l ∈ myPerms [bulkP, bulkV1, bulkV2, bulkI],
      (process_bulk_results l).map (fun mp => (mp.variants.length, mp.images.length)) =
        [(2, 1)]) ∧
    (∀ (b : BulkBuckets) (ps : List (String × BulkLine)) (seen : List String),
      mapLoop b seen ps = (dedupByHandleFirst seen ps).map
        (fun kv => mapProductNode b kv.1 kv.2)) ∧
    (∀ (ps : List (String × BulkLine)) (h : String), h ≠ "" →
      ((dedupByHandleFirst [] ps).filter (fun kv => kv.2.handle = some h)).length ≤ 1 ∧
      ∀ kv rest₁, ps.filter (fun kv => kv.2.handle = some h) = kv :: rest₁ →
        kv ∈ dedupByHandleFirst [] ps) := by
  refine ⟨?_, by decide, mapLoop_eq_dedup_map, ?_⟩
  · intro stream pid node hpid
    constructor
    · show ((dictGet pid (stream.foldl bucketLine ⟨[], [], [], []⟩).variantsByParent).getD []).map
        mapVariantNode = _
      rw [bucketFold_variants_get stream ⟨[], [], [], []⟩ pid hpid]
      show ((if stream.filter
            (fun n => n.typename = some "ProductVariant" ∧ n.parentId = some pid) = []
          then none
          else some (stream.filter
            (fun n => n.typename = some "ProductVariant" ∧ n.parentId = some pid))).getD []).map
        mapVariantNode = _
      by_cases hf : stream.filter
          (fun n => n.typename = some "ProductVariant" ∧ n.parentId = some pid) = []
      · rw [if_pos hf, hf]
        rfl
      · rw [if_neg hf]
        rfl
    · show ((dictGet pid (stream.foldl bucketLine ⟨[], [], [], []⟩).imagesByParent).getD []).filterMap _ = _
      rw [bucketFold_images_get stream ⟨[], [], [], []⟩ pid hpid]
      show ((if stream.filter
            (fun n => n.typename = some "ProductImage" ∧ n.parentId = some pid) = []
          then none
          else some (stream.filter
            (fun n => n.typename = some "ProductImage" ∧ n.parentId = some pid))).getD []).filterMap
        _ = _
      by_cases hf : stream.filter
          (fun n => n.typename = some "ProductImage" ∧ n.parentId = some pid) = []
      · rw [if_pos hf, hf]
        rfl
      · rw [if_neg hf]
        rfl
  · intro ps h hne
    exact ⟨dedupByHandleFirst_at_most_one ps [] h hne,
      dedupByHandleFirst_keeps_first ps [] h hne (by simp)⟩

/-- Witness for C5 amended: on the concrete stream the reconstructed item
has exactly 2 variants and 1 image for one sample permutation. -/
theorem bulk_reassembly_children_and_dedup_witness :
    (process_bulk_results [bulkV2, bulkP, bulkI, bulkV1]).map
      (fun mp => (mp.variants.length, mp.images.length)) = [(2, 1)] :=
  bulk_reassembly_children_and_dedup.2.1 [bulkV2, bulkP, bulkI, bulkV1] (by decide)


/-! ## C9 : image normalization, de-duplication, primary-first order -/

theorem b64EncodeAux_ne_nil (b : List Nat) (hb : b ≠ []) : b64EncodeAux b ≠ [] := by
  match b with
  | [] => exact absurd rfl hb
  | [a] => simp [b64EncodeAux]
  | [a, c] => simp [b64EncodeAux]
  | a :: c :: d :: rest => simp [b64EncodeAux]

theorem to_base64_ne_empty (b : List Nat) (hb : b ≠ []) : to_base64 b ≠ "" := by
  rw [to_base64, if_neg hb]
  intro he
  have : b64EncodeAux b = [] := by
    have := congrArg String.data he
    simpa using this
  exact b64EncodeAux_ne_nil b hb this

theorem dedupFirstAux_congr [DecidableEq α] {s₁ s₂ : List α}
    (h : ∀ x, x ∈ s₁ ↔ x ∈ s₂) (l : List α) :
    dedupFirstAux s₁ l = dedupFirstAux s₂ l := by
  induction l generalizing s₁ s₂ with
  | nil => rfl
  | cons x xs ih =>
      by_cases hx : x ∈ s₁
      · simp [dedupFirstAux, hx, (h x).mp hx, ih h]
      · have hx₂ : x ∉ s₂ := fun hc => hx ((h x).mpr hc)
        have hcons : ∀ y, y ∈ x :: s₁ ↔ y ∈ x :: s₂ := by
          intro y
          simp [h y]
        simp [dedupFirstAux, hx, hx₂, ih hcons]

theorem mem_dedupFirstAux_subset [DecidableEq α] (seen l : List α) :
    ∀ x ∈ dedupFirstAux seen l, x ∈ l := by
  induction l generalizing seen with
  | nil => simp [dedupFirstAux]
  | cons y ys ih =>
      intro x hx
      by_cases hy : y ∈ seen
      · simp only [dedupFirstAux, if_pos hy] at hx
        exact List.mem_cons_of_mem _ (ih seen x hx)
      · simp only [dedupFirstAux, if_neg hy, List.mem_cons] at hx
        rcases hx with h | h
        · simp [h]
        · exact List.mem_cons_of_mem _ (ih (y :: seen) x h)

theorem imgFoldEqDedup (vs acc : List String) :
    vs.foldl (fun l v => if v ≠ "" ∧ v ∉ l then l ++ [v] else l) acc =
      acc ++ dedupFirstAux acc (vs.filter (fun v => v ≠ "")) := by
  induction vs generalizing acc with
  | nil => simp [dedupFirstAux]
  | cons v vs ih =>
      simp only [List.foldl_cons]
      by_cases hv1 : v = ""
      · have hcond : ¬(v ≠ "" ∧ v ∉ acc) := fun hc => hc.1 hv1
        rw [if_neg hcond]
        have hfil : (v :: vs).filter (fun v => v ≠ "") = vs.filter (fun v => v ≠ "") := by
          rw [List.filter_cons]
          simp [hv1]
        rw [hfil]
        exact ih acc
      · have hfil : (v :: vs).filter (fun v => v ≠ "") = v :: vs.filter (fun v => v ≠ "") := by
          rw [List.filter_cons]
          simp [hv1]
        rw [hfil]
        by_cases hv2 : v ∈ acc
        · have hcond : ¬(v ≠ "" ∧ v ∉ acc) := fun hc => hc.2 hv2
          rw [if_neg hcond]
          have hskip : dedupFirstAux acc (v :: vs.filter (fun v => v ≠ "")) =
              dedupFirstAux acc (vs.filter (fun v => v ≠ "")) := by
            simp [dedupFirstAux, hv2]
          rw [hskip]
          exact ih acc
        · have hcond : (v ≠ "" ∧ v ∉ acc) := ⟨hv1, hv2⟩
          rw [if_pos hcond, ih (acc ++ [v])]
          have hcongr : dedupFirstAux (acc ++ [v]) (vs.filter (fun v => v ≠ "")) =
              dedupFirstAux (v :: acc) (vs.filter (fun v => v ≠ "")) := by
            apply dedupFirstAux_congr
            intro x
            simp [or_comm]
          rw [hcongr]
          have hstep : dedupFirstAux acc (v :: vs.filter (fun v => v ≠ "")) =
              v :: dedupFirstAux (v :: acc) (vs.filter (fun v => v ≠ "")) := by
            simp [dedupFirstAux, hv2]
          rw [hstep]
          simp

theorem processItem_single (s : String) (hs : s ≠ "") (g : GroupedProduct)
    (it : MergedItem) (hpid : it.product.productId = some s) :
    processItem [(s, g)] it = [(s,
      { row := g.row
        images :=
          (match (imgRawOf it).map to_base64 with
           | some v => if v ≠ "" ∧ v ∉ g.images then g.images ++ [v] else g.images
           | none => g.images)
        warranties := g.warranties ++
          (match warrantyRecOf it with
           | some w => [w]
           | none => []) })] := by
  cases hir : imgRawOf it with
  | none =>
      cases hwr : warrantyRecOf it with
      | none => simp [processItem, hpid, hs, hir, hwr, dictGet, dictSet]
      | some w => simp [processItem, hpid, hs, hir, hwr, dictGet, dictSet]
  | some b =>
      cases hwr : warrantyRecOf it with
      | none =>
          by_cases hv : to_base64 b ≠ "" ∧ to_base64 b ∉ g.images
          · simp [processItem, hpid, hs, hir, hwr, dictGet, dictSet, hv]
          · simp [processItem, hpid, hs, hir, hwr, dictGet, dictSet, hv]
      | some w =>
          by_cases hv : to_base64 b ≠ "" ∧ to_base64 b ∉ g.images
          · simp [processItem, hpid, hs, hir, hwr, dictGet, dictSet, hv]
          · simp [processItem, hpid, hs, hir, hwr, dictGet, dictSet, hv]

theorem processGroups_single_entry (s : String) (hs : s ≠ "") (items : List MergedItem) :
    ∀ (g : GroupedProduct), (∀ it ∈ items, it.product.productId = some s) →
      items.foldl processItem [(s, g)] = [(s,
        { row := g.row
          images := (items.filterMap (fun it => (imgRawOf it).map to_base64)).foldl
            (fun l v => if v ≠ "" ∧ v ∉ l then l ++ [v] else l) g.images
          warranties := g.warranties ++ items.filterMap warrantyRecOf })] := by
  induction items with
  | nil =>
      intro g _
      simp
  | cons it rest ih =>
      intro g hall
      have hpid : it.product.productId = some s := hall it (List.mem_cons_self _ _)
      simp only [List.foldl_cons]
      rw [processItem_single s hs g it hpid]
      rw [ih _ (fun x hx => hall x (List.mem_cons_of_mem _ hx))]
      cases hir : imgRawOf it with
      | none =>
          cases hwr : warrantyRecOf it with
          | none => simp [List.filterMap_cons, hir, hwr]
          | some w => simp [List.filterMap_cons, hir, hwr]
      | some b =>
          cases hwr : warrantyRecOf it with
          | none => simp [List.filterMap_cons, hir, hwr]
          | some w => simp [List.filterMap_cons, hir, hwr]


/-- Running best of the descending insertion: the head of the sorted
accumulator after one insertion. -/
def bestStep (c : Option ImageRow) (y : ImageRow) : Option ImageRow :=
  match c with
  | none => some y
  | some z => if toIntD y.isPrimary ≤ toIntD z.isPrimary then some z else some y

theorem insertPrimaryDesc_head (y : ImageRow) (acc : List ImageRow) :
    (insertPrimaryDesc y acc).head? = bestStep acc.head? y := by
  cases acc with
  | nil => rfl
  | cons z zs =>
      by_cases h : toIntD y.isPrimary ≤ toIntD z.isPrimary
      · simp [insertPrimaryDesc, bestStep, h]
      · simp [insertPrimaryDesc, bestStep, h]

theorem sortFold_head (l acc : List ImageRow) :
    (l.foldl (fun a x => insertPrimaryDesc x a) acc).head? = l.foldl bestStep acc.head? := by
  induction l generalizing acc with
  | nil => rfl
  | cons x xs ih =>
      simp only [List.foldl_cons]
      rw [ih (insertPrimaryDesc x acc), insertPrimaryDesc_head]

theorem bestFold_post (post : List ImageRow) (x : ImageRow)
    (hpost : ∀ y ∈ post, toIntD y.isPrimary ≤ toIntD x.isPrimary) :
    post.foldl bestStep (some x) = some x := by
  induction post with
  | nil => rfl
  | cons y ys ih =>
      simp only [List.foldl_cons, bestStep]
      rw [if_pos (hpost y (List.mem_cons_self _ _))]
      exact ih (fun z hz => hpost z (List.mem_cons_of_mem _ hz))

theorem bestFold_pre (pre : List ImageRow) (k : Int)
    (hpre : ∀ y ∈ pre, toIntD y.isPrimary < k) :
    ∀ c, (c = none ∨ ∃ z, c = some z ∧ toIntD z.isPrimary < k) →
      (pre.foldl bestStep c = none ∨
        ∃ z, pre.foldl bestStep c = some z ∧ toIntD z.isPrimary < k) := by
  induction pre with
  | nil => intro c hc; simpa using hc
  | cons y ys ih =>
      intro c hc
      have hy := hpre y (List.mem_cons_self _ _)
      have hys := fun z hz => hpre z (List.mem_cons_of_mem _ hz)
      simp only [List.foldl_cons]
      apply ih hys
      rcases hc with h | ⟨z, hz, hkz⟩
      · subst h
        exact Or.inr ⟨y, rfl, hy⟩
      · subst hz
        by_cases hle : toIntD y.isPrimary ≤ toIntD z.isPrimary
        · exact Or.inr ⟨z, by simp [bestStep, hle], hkz⟩
        · exact Or.inr ⟨y, by simp [bestStep, hle], hy⟩

/-- Head of the stable primary-descending sort: the first element whose key
strictly dominates everything before it and weakly dominates everything
after it ends up first. -/
theorem sortPrimaryFirst_head (l pre post : List ImageRow) (x : ImageRow)
    (hsplit : l = pre ++ x :: post)
    (hpre : ∀ y ∈ pre, toIntD y.isPrimary < toIntD x.isPrimary)
    (hpost : ∀ y ∈ post, toIntD y.isPrimary ≤ toIntD x.isPrimary) :
    (sortPrimaryFirst l).head? = some x := by
  rw [show sortPrimaryFirst l = l.foldl (fun a y => insertPrimaryDesc y a) [] from rfl]
  rw [sortFold_head]
  subst hsplit
  rw [List.foldl_append, List.foldl_cons]
  have hc := bestFold_pre pre (toIntD x.isPrimary) hpre none (Or.inl rfl)
  have hbx : bestStep (pre.foldl bestStep none) x = some x := by
    rcases hc with h | ⟨z, hz, hkz⟩
    · rw [h]
      rfl
    · rw [hz]
      simp [bestStep, not_le.mpr hkz]
  show List.foldl bestStep (bestStep (List.foldl bestStep none pre) x) post = some x
  rw [hbx]
  exact bestFold_post post x hpost


/-- Non-empty payload of an image row, as the truthy-or chain of the
grouping step sees it. -/
def payloadOf (im : ImageRow) : Option (List Nat) :=
  match im.base64 with
  | some b => if b ≠ [] then some b else none
  | none => none

/-- Image list the claim says the Variant Expander emits for a product key:
base64 encodings of the non-empty payloads of its primary-sorted associated
image rows, de-duplicated by encoded value with first-seen order kept. -/
def productImageEncodings (imgs : List ImageRow) (s : String) : List String :=
  dedupFirst
    (((sortPrimaryFirst (imgs.filter (fun im => im.supplier_aid = some s))).filterMap
      payloadOf).map to_base64)

theorem processItem_empty (s : String) (hs : s ≠ "") (it : MergedItem)
    (hpid : it.product.productId = some s) :
    processItem [] it = [(s,
      { row := it.product
        images :=
          (match (imgRawOf it).map to_base64 with
           | some v => if v ≠ "" then [v] else []
           | none => [])
        warranties :=
          (match warrantyRecOf it with
           | some w => [w]
           | none => []) })] := by
  cases hir : imgRawOf it with
  | none =>
      cases hwr : warrantyRecOf it with
      | none => simp [processItem, hpid, hs, hir, hwr, dictGet, dictSet]
      | some w => simp [processItem, hpid, hs, hir, hwr, dictGet, dictSet]
  | some b =>
      cases hwr : warrantyRecOf it with
      | none =>
          by_cases hv : to_base64 b ≠ ""
          · simp [processItem, hpid, hs, hir, hwr, dictGet, dictSet, hv]
          · simp [processItem, hpid, hs, hir, hwr, dictGet, dictSet, hv]
      | some w =>
          by_cases hv : to_base64 b ≠ ""
          · simp [processItem, hpid, hs, hir, hwr, dictGet, dictSet, hv]
          · simp [processItem, hpid, hs, hir, hwr, dictGet, dictSet, hv]

theorem processGroups_all_same (s : String) (hs : s ≠ "") (it₀ : MergedItem)
    (rest : List MergedItem)
    (hall : ∀ it ∈ it₀ :: rest, it.product.productId = some s) :
    processGroups (it₀ :: rest) = [(s,
      { row := it₀.product
        images := ((it₀ :: rest).filterMap (fun it => (imgRawOf it).map to_base64)).foldl
          (fun l v => if v ≠ "" ∧ v ∉ l then l ++ [v] else l) []
        warranties := (it₀ :: rest).filterMap warrantyRecOf })] := by
  have hpid : it₀.product.productId = some s := hall it₀ (List.mem_cons_self _ _)
  show (it₀ :: rest).foldl processItem [] = _
  rw [List.foldl_cons, processItem_empty s hs it₀ hpid]
  rw [processGroups_single_entry s hs rest _ (fun x hx => hall x (List.mem_cons_of_mem _ hx))]
  cases hir : imgRawOf it₀ with
  | none =>
      cases hwr : warrantyRecOf it₀ with
      | none => simp [List.filterMap_cons, hir, hwr]
      | some w => simp [List.filterMap_cons, hir, hwr]
  | some b =>
      cases hwr : warrantyRecOf it₀ with
      | none =>
          by_cases hv : to_base64 b ≠ ""
          · simp [List.filterMap_cons, hir, hwr, hv]
          · simp [List.filterMap_cons, hir, hwr, hv]
      | some w =>
          by_cases hv : to_base64 b ≠ ""
          · simp [List.filterMap_cons, hir, hwr, hv]
          · simp [List.filterMap_cons, hir, hwr, hv]


/-- Claim C9: For every product bundle (a product row with the image and warranty
rows), the Variant Expander's emitted image list is exactly the base64
encoding of each non-empty payload of the product's primary-first-sorted
associated images, de-duplicated by encoded value with first-seen order
preserved — and because the Record Merger pre-sorts primary-first (stable),
whenever a primary image (strictly maximal flag, first such in row order)
with a non-empty payload exists, its encoding is the first element. -/
theorem image_pipeline_dedup_primary_first (p : ProductRow) (imgs : List ImageRow)
    (ws : List WarrantyRow) (s : String) (hs : p.productId = some s) (hne : s ≠ "") :
    ((process_products (merge_data [p] imgs ws)).map (fun w => w.product.images) =
      [if productImageEncodings imgs s = [] then none
       else some ((productImageEncodings imgs s).map ShopifyImage.mk)]) ∧
    (∀ (pre post : List ImageRow) (im₀ : ImageRow) (b₀ : List Nat),
      imgs.filter (fun im => im.supplier_aid = some s) = pre ++ im₀ :: post →
      (∀ y ∈ pre, toIntD y.isPrimary < toIntD im₀.isPrimary) →
      (∀ y ∈ post, toIntD y.isPrimary ≤ toIntD im₀.isPrimary) →
      im₀.base64 = some b₀ → b₀ ≠ [] →
      (productImageEncodings imgs s).head? = some (to_base64 b₀)) := by
  constructor
  · have hri : relImages p.productId imgs =
        sortPrimaryFirst (imgs.filter (fun im => im.supplier_aid = some s)) := by
      rw [hs]
      simp [relImages, hne]
    have hitems : merge_data [p] imgs ws =
        (sortPrimaryFirst (imgs.filter (fun im => im.supplier_aid = some s))).map
          (fun im => (⟨p, some im, none⟩ : MergedItem)) ++
        (relWarranties p.garantiegruppe ws).map
          (fun w => (⟨p, none, some w⟩ : MergedItem)) ++
        (if sortPrimaryFirst (imgs.filter (fun im => im.supplier_aid = some s)) = [] ∧
            relWarranties p.garantiegruppe ws = []
         then [(⟨p, none, none⟩ : MergedItem)] else []) := by
      rw [merge_data_eq_flatMap [p] imgs ws]
      simp [hri]
    have hall : ∀ it ∈
        (sortPrimaryFirst (imgs.filter (fun im => im.supplier_aid = some s))).map
          (fun im => (⟨p, some im, none⟩ : MergedItem)) ++
        (relWarranties p.garantiegruppe ws).map
          (fun w => (⟨p, none, some w⟩ : MergedItem)) ++
        (if sortPrimaryFirst (imgs.filter (fun im => im.supplier_aid = some s)) = [] ∧
            relWarranties p.garantiegruppe ws = []
         then [(⟨p, none, none⟩ : MergedItem)] else []),
        it.product.productId = some s := by
      intro it hit
      rcases List.mem_append.mp hit with h | h
      · rcases List.mem_append.mp h with h₁ | h₁
        · obtain ⟨im, _, rfl⟩ := List.mem_map.mp h₁
          exact hs
        · obtain ⟨w, _, rfl⟩ := List.mem_map.mp h₁
          exact hs
      · by_cases hc : sortPrimaryFirst (imgs.filter (fun im => im.supplier_aid = some s)) = [] ∧
            relWarranties p.garantiegruppe ws = []
        · rw [if_pos hc] at h
          obtain rfl := List.mem_singleton.mp h
          exact hs
        · rw [if_neg hc] at h
          simp at h
    have hnonempty :
        (sortPrimaryFirst (imgs.filter (fun im => im.supplier_aid = some s))).map
          (fun im => (⟨p, some im, none⟩ : MergedItem)) ++
        (relWarranties p.garantiegruppe ws).map
          (fun w => (⟨p, none, some w⟩ : MergedItem)) ++
        (if sortPrimaryFirst (imgs.filter (fun im => im.supplier_aid = some s)) = [] ∧
            relWarranties p.garantiegruppe ws = []
         then [(⟨p, none, none⟩ : MergedItem)] else []) ≠ [] := by
      intro habs
      rcases List.append_eq_nil.mp habs with ⟨hab, hc⟩
      rcases List.append_eq_nil.mp hab with ⟨h₁, h₂⟩
      have hcnd : sortPrimaryFirst (imgs.filter (fun im => im.supplier_aid = some s)) = [] ∧
          relWarranties p.garantiegruppe ws = [] := by
        constructor
        · exact List.map_eq_nil.mp h₁
        · exact List.map_eq_nil.mp h₂
      rw [if_pos hcnd] at hc
      simp at hc
    obtain ⟨it₀, rest, heq⟩ := List.exists_cons_of_ne_nil hnonempty
    have hall₂ : ∀ it ∈ it₀ :: rest, it.product.productId = some s := by
      intro it hit
      exact hall it (heq ▸ hit)
    have hPG : processGroups (merge_data [p] imgs ws) = [(s,
        { row := it₀.product
          images := ((it₀ :: rest).filterMap (fun it => (imgRawOf it).map to_base64)).foldl
            (fun l v => if v ≠ "" ∧ v ∉ l then l ++ [v] else l) []
          warranties := (it₀ :: rest).filterMap warrantyRecOf })] := by
      rw [hitems, heq]
      exact processGroups_all_same s hne it₀ rest hall₂
    have hencs : (it₀ :: rest).filterMap (fun it => (imgRawOf it).map to_base64) =
        ((sortPrimaryFirst (imgs.filter (fun im => im.supplier_aid = some s))).filterMap
          payloadOf).map to_base64 := by
      rw [← heq, List.filterMap_append, List.filterMap_append]
      have h₁ : ((sortPrimaryFirst (imgs.filter (fun im => im.supplier_aid = some s))).map
          (fun im => (⟨p, some im, none⟩ : MergedItem))).filterMap
            (fun it => (imgRawOf it).map to_base64) =
          ((sortPrimaryFirst (imgs.filter (fun im => im.supplier_aid = some s))).filterMap
            payloadOf).map to_base64 := by
        rw [List.filterMap_map]
        have hfun : ((fun it => Option.map to_base64 (imgRawOf it)) ∘ fun im =>
            (⟨p, some im, none⟩ : MergedItem)) =
            fun im => Option.map to_base64 (payloadOf im) := by
          funext im
          rfl
        rw [hfun, ← List.map_filterMap]
      have h₂ : ((relWarranties p.garantiegruppe ws).map
          (fun w => (⟨p, none, some w⟩ : MergedItem))).filterMap
            (fun it => (imgRawOf it).map to_base64) = [] := by
        rw [List.filterMap_map]
        simp [imgRawOf]
      have h₃ : (if sortPrimaryFirst (imgs.filter (fun im => im.supplier_aid = some s)) = [] ∧
            relWarranties p.garantiegruppe ws = []
          then [(⟨p, none, none⟩ : MergedItem)] else []).filterMap
            (fun it => (imgRawOf it).map to_base64) = [] := by
        by_cases hc : sortPrimaryFirst (imgs.filter (fun im => im.supplier_aid = some s)) = [] ∧
            relWarranties p.garantiegruppe ws = []
        · rw [if_pos hc]
          simp [imgRawOf]
        · rw [if_neg hc]
          rfl
      rw [h₁, h₂, h₃]
      simp
    have hmemne : ∀ e ∈ ((sortPrimaryFirst
        (imgs.filter (fun im => im.supplier_aid = some s))).filterMap
          payloadOf).map to_base64, e ≠ "" := by
      intro e he
      obtain ⟨b, hb, rfl⟩ := List.mem_map.mp he
      obtain ⟨im, _, hpay⟩ := List.mem_filterMap.mp hb
      have hbne : b ≠ [] := by
        cases hcase : im.base64 with
        | none => simp [payloadOf, hcase] at hpay
        | some b₁ =>
            by_cases hb₁ : b₁ = []
            · simp [payloadOf, hcase, hb₁] at hpay
            · simp [payloadOf, hcase, hb₁] at hpay
              rw [← hpay]
              exact hb₁
      exact to_base64_ne_empty b hbne
    have hGimg : ((it₀ :: rest).filterMap (fun it => (imgRawOf it).map to_base64)).foldl
        (fun l v => if v ≠ "" ∧ v ∉ l then l ++ [v] else l) [] =
        productImageEncodings imgs s := by
      rw [hencs, imgFoldEqDedup]
      have hfil : (((sortPrimaryFirst (imgs.filter (fun im => im.supplier_aid = some s))).filterMap
          payloadOf).map to_base64).filter (fun v => v ≠ "") =
          ((sortPrimaryFirst (imgs.filter (fun im => im.supplier_aid = some s))).filterMap
            payloadOf).map to_base64 :=
        List.filter_eq_self.mpr (fun a ha => by simpa using hmemne a ha)
      rw [hfil]
      simp [productImageEncodings, dedupFirst]
    have hfil₂ : (productImageEncodings imgs s).filter (fun b => b ≠ "") =
        productImageEncodings imgs s := by
      apply List.filter_eq_self.mpr
      intro a ha
      have hmem : a ∈ ((sortPrimaryFirst
          (imgs.filter (fun im => im.supplier_aid = some s))).filterMap
            payloadOf).map to_base64 := by
        have := mem_dedupFirstAux_subset []
          (((sortPrimaryFirst (imgs.filter (fun im => im.supplier_aid = some s))).filterMap
            payloadOf).map to_base64) a
        exact this (by simpa [productImageEncodings, dedupFirst] using ha)
      simpa using hmemne a hmem
    have himgfield : ∀ g : GroupedProduct, (_create_shopify_product g).product.images =
        (if (g.images.filter (fun b => b ≠ "")).map ShopifyImage.mk = [] then none
         else some ((g.images.filter (fun b => b ≠ "")).map ShopifyImage.mk)) :=
      fun g => rfl
    show ((processGroups (merge_data [p] imgs ws)).map
      (fun kv => _create_shopify_product kv.2)).map (fun w => w.product.images) = _
    rw [hPG]
    simp only [List.map_cons, List.map_nil]
    rw [himgfield]
    dsimp only
    rw [hGimg, hfil₂]
    by_cases hE : productImageEncodings imgs s = []
    · simp [hE]
    · simp [hE]
  · intro pre post im₀ b₀ hsplit hpre hpost hb hbne
    have hhead := sortPrimaryFirst_head
      (imgs.filter (fun im => im.supplier_aid = some s)) pre post im₀ hsplit hpre hpost
    obtain ⟨t, ht⟩ : ∃ t, sortPrimaryFirst (imgs.filter (fun im => im.supplier_aid = some s)) =
        im₀ :: t := by
      cases hsort : sortPrimaryFirst (imgs.filter (fun im => im.supplier_aid = some s)) with
      | nil => rw [hsort] at hhead; simp at hhead
      | cons a t =>
          rw [hsort] at hhead
          simp only [List.head?_cons, Option.some.injEq] at hhead
          exact ⟨t, by rw [hhead]⟩
    have hpay : payloadOf im₀ = some b₀ := by
      rw [payloadOf, hb]
      simp [hbne]
    rw [productImageEncodings, ht, List.filterMap_cons, hpay]
    simp only [List.map_cons]
    show (dedupFirstAux [] (to_base64 b₀ :: (t.filterMap payloadOf).map to_base64)).head? = _
    simp [dedupFirstAux]

/-- Witness for C9: a concrete bundle with one primary and one secondary
image; the emitted image list is the claim's encoding list. -/
theorem image_pipeline_dedup_primary_first_witness :
    (process_products (merge_data
      [{ productId := some "p3", title := none, descriptionShort := none,
         longDescription := none, manufacturer := none, category := none,
         categoryPath := none, warranty := none, price_B2B_Regular := none,
         price_B2B_Discounted := none, price_B2C_inclVAT := none, stock := none,
         stockNextDelivery := none, grossWeight := none, netWeight := none,
         garantiegruppe := none, accessoryProducts := none }]
      [{ supplier_aid := some "p3", isPrimary := some 0, base64 := some [2] },
       { supplier_aid := some "p3", isPrimary := some 1, base64 := some [1] }]
      [])).map (fun w => w.product.images) =
      [if productImageEncodings
          [{ supplier_aid := some "p3", isPrimary := some 0, base64 := some [2] },
           { supplier_aid := some "p3", isPrimary := some 1, base64 := some [1] }] "p3" = []
        then none
        else some ((productImageEncodings
          [{ supplier_aid := some "p3", isPrimary := some 0, base64 := some [2] },
           { supplier_aid := some "p3", isPrimary := some 1, base64 := some [1] }] "p3").map
            ShopifyImage.mk)] :=
  (image_pipeline_dedup_primary_first _ _ [] "p3" rfl (by decide)).1

end W2S
